import Mathlib

/-!
Shallow embedding of the explicit-free-list memory allocator in src/mm.c.

The heap is modelled as a byte-addressed memory (a function from addresses to
byte values); 32-bit word reads and writes (the GET/PUT macros of the source)
are little-endian combinations of four bytes.  Machine integers are modelled
as natural numbers with explicit reduction modulo 2^32 (unsigned int) and
2^64 (size_t / pointers) where the C code can overflow.  The external growth
primitive mem_sbrk (out of scope per the spec, supplied by the host) is
modelled as a bump allocator with a host-imposed limit; on failure it returns
the all-ones word, matching the (void *)-1 sentinel of the C interface.

Pointer arithmetic such as bp - 4 on valid heap addresses never goes below
zero in any state considered here, so plain truncated Nat subtraction agrees
with the C pointer arithmetic.
-/

set_option maxRecDepth 200000
set_option maxHeartbeats 1000000
set_option linter.all false

namespace Malloc

/-- 2^32, the modulus of unsigned int values. -/
def W32 : Nat := 4294967296

/-- 2^64, the modulus of size_t and pointer values. -/
def W64 : Nat := 18446744073709551616

/-- Byte-addressed memory. -/
def Mem : Type := Nat → Nat

/-- Write one byte (values reduced mod 256). -/
def writeByte (m : Mem) (a v : Nat) : Mem := fun x => if x = a then v % 256 else m x

/-- Read one byte. -/
def readByte (m : Mem) (a : Nat) : Nat := m a % 256

/-- GET(p): read the little-endian 32-bit word at byte address p. -/
def getW (m : Mem) (p : Nat) : Nat :=
  readByte m p + 256 * readByte m (p + 1) + 65536 * readByte m (p + 2) +
    16777216 * readByte m (p + 3)

/-- PUT(p, v): write the little-endian 32-bit word v (mod 2^32) at byte address p. -/
def putW (m : Mem) (p v : Nat) : Mem :=
  writeByte (writeByte (writeByte (writeByte m p v) (p + 1) (v / 256)) (p + 2) (v / 65536))
    (p + 3) (v / 16777216)

/-- Allocator and host state: the byte memory, the current heap end (brk),
the host's growth limit, and the two globals of mm.c. -/
structure MState where
  mem : Mem
  brk : Nat
  limit : Nat
  heap_listp : Nat
  first_free : Nat

/-- The (void *)-1 failure sentinel returned by mem_sbrk. -/
def SBRK_FAIL : Nat := W64 - 1

/-- Modelled from the spec: the host growth primitive, out of scope for the
repository ("grow heap by N bytes, return start address or failure").
Grows the region when the host limit allows it, returning the previous end;
otherwise returns the failure sentinel and leaves the state unchanged. -/
def mem_sbrk (s : MState) (incr : Nat) : MState × Nat :=
  if s.brk + incr ≤ s.limit then ({ s with brk := s.brk + incr }, s.brk)
  else (s, SBRK_FAIL)

/-- CHUNKSIZE = (1 shifted left by 9) = 512 bytes. -/
def CHUNKSIZE : Nat := 512

/-- PACK(size, alloc) = size | alloc. -/
def PACK (size alloc : Nat) : Nat := size ||| alloc

/-- GET_SIZE(p) = GET(p) with the low three bits masked off
(the C mask with the 32-bit complement of 0x7). -/
def GET_SIZE (m : Mem) (p : Nat) : Nat := getW m p - getW m p % 8

/-- GET_ALLOC(p) = GET(p) masked with 0x1. -/
def GET_ALLOC (m : Mem) (p : Nat) : Nat := getW m p % 2

/-- HDRP(bp): header address of the block with payload address bp. -/
def HDRP (bp : Nat) : Nat := bp - 4

/-- FTRP(bp): footer address, computed from the current header contents. -/
def FTRP (m : Mem) (bp : Nat) : Nat := bp + GET_SIZE m (HDRP bp) - 8

/-- NEXT_BLKP(bp): payload address of the physically next block. -/
def NEXT_BLKP (m : Mem) (bp : Nat) : Nat := bp + GET_SIZE m (bp - 4)

/-- PREV_BLKP(bp): payload address of the physically previous block. -/
def PREV_BLKP (m : Mem) (bp : Nat) : Nat := bp - GET_SIZE m (bp - 8)

/-- COMP_OFFSET(address) = address - heap_listp in unsigned 64-bit arithmetic. -/
def COMP_OFFSET (hl addr : Nat) : Nat := (W64 + addr - hl) % W64

/-- COMP_ADDRESS(offset) = heap_listp + offset in unsigned 64-bit arithmetic. -/
def COMP_ADDRESS (hl off : Nat) : Nat := (hl + off) % W64

/-- GET_PRED(bp): decompress the 32-bit predecessor offset stored at bp. -/
def GET_PRED (s : MState) (bp : Nat) : Nat := COMP_ADDRESS s.heap_listp (getW s.mem bp)

/-- GET_SUCC(bp): decompress the 32-bit successor offset stored at bp + 4. -/
def GET_SUCC (s : MState) (bp : Nat) : Nat :=
  COMP_ADDRESS s.heap_listp (getW s.mem (bp + 4))

/-- SET_PRED(bp, val): store the compressed offset of val at bp
(the store truncates to 32 bits, matching the unsigned int cast). -/
def SET_PRED (s : MState) (bp val : Nat) : MState :=
  { s with mem := putW s.mem bp (COMP_OFFSET s.heap_listp val) }

/-- SET_SUCC(bp, val): store the compressed offset of val at bp + 4. -/
def SET_SUCC (s : MState) (bp val : Nat) : MState :=
  { s with mem := putW s.mem (bp + 4) (COMP_OFFSET s.heap_listp val) }

/-- size_t subtraction (wraps modulo 2^64). -/
def usub64 (a b : Nat) : Nat := (W64 + a - b) % W64

/-- are_adjacent: relink used by coalesce when the two blocks being merged
are list neighbors. -/
def are_adjacent (s : MState) (bp : Nat) (case3 : Bool) : MState :=
  if case3 then
    let next := GET_SUCC s bp
    let s1 := SET_PRED s next s.heap_listp
    { s1 with first_free := next }
  else
    let new_succ := GET_SUCC s (GET_SUCC s bp)
    let s1 := SET_SUCC s bp new_succ
    if new_succ ≠ s1.heap_listp then SET_PRED s1 new_succ bp else s1

/-- not_adjacent: relink used by coalesce when the two blocks being merged
are not list neighbors. -/
def not_adjacent (s : MState) (bp : Nat) (case3 : Bool) : MState :=
  if case3 then
    let prev := PREV_BLKP s.mem bp
    let s1 := SET_SUCC s (GET_PRED s prev) (GET_SUCC s prev)
    let s2 :=
      if GET_SUCC s1 prev ≠ s1.heap_listp then
        SET_PRED s1 (GET_SUCC s1 prev) (GET_PRED s1 prev)
      else s1
    let s3 := SET_PRED s2 prev s2.heap_listp
    let s4 := SET_SUCC s3 prev (GET_SUCC s3 bp)
    let s5 := { s4 with first_free := prev }
    SET_PRED s5 (GET_SUCC s5 bp) s5.first_free
  else
    let next := NEXT_BLKP s.mem bp
    let pred := GET_PRED s next
    let succ := GET_SUCC s next
    let s1 := SET_SUCC s pred succ
    if succ ≠ s1.heap_listp then SET_PRED s1 succ pred else s1

/-- coalesce: boundary-tag coalescing, returns the coalesced block pointer. -/
def coalesce (s : MState) (bp : Nat) : MState × Nat :=
  let prev_alloc := GET_ALLOC s.mem (FTRP s.mem (PREV_BLKP s.mem bp))
  let next_alloc := GET_ALLOC s.mem (HDRP (NEXT_BLKP s.mem bp))
  let size := GET_SIZE s.mem (HDRP bp)
  if prev_alloc ≠ 0 ∧ next_alloc ≠ 0 then            -- Case 1
    (s, bp)
  else if prev_alloc ≠ 0 ∧ next_alloc = 0 then       -- Case 2
    let s1 :=
      if GET_SUCC s bp = NEXT_BLKP s.mem bp then are_adjacent s bp false
      else not_adjacent s bp false
    let size2 := size + GET_SIZE s1.mem (HDRP (NEXT_BLKP s1.mem bp))
    let m1 := putW s1.mem (HDRP bp) (PACK size2 0)
    let m2 := putW m1 (FTRP m1 bp) (PACK size2 0)
    ({ s1 with mem := m2 }, bp)
  else if prev_alloc = 0 ∧ next_alloc ≠ 0 then       -- Case 3
    let s1 :=
      if GET_SUCC s bp = PREV_BLKP s.mem bp then are_adjacent s bp true
      else not_adjacent s bp true
    let size2 := size + GET_SIZE s1.mem (HDRP (PREV_BLKP s1.mem bp))
    let m1 := putW s1.mem (FTRP s1.mem bp) (PACK size2 0)
    let m2 := putW m1 (HDRP (PREV_BLKP m1 bp)) (PACK size2 0)
    ({ s1 with mem := m2 }, PREV_BLKP m2 bp)
  else                                               -- Case 4
    let s1 :=
      if GET_SUCC s bp = NEXT_BLKP s.mem bp then are_adjacent s bp false
      else not_adjacent s bp false
    let s2 :=
      if GET_SUCC s1 bp = PREV_BLKP s1.mem bp then are_adjacent s1 bp true
      else not_adjacent s1 bp true
    let size2 := size + GET_SIZE s2.mem (HDRP (PREV_BLKP s2.mem bp)) +
      GET_SIZE s2.mem (FTRP s2.mem (NEXT_BLKP s2.mem bp))
    let m1 := putW s2.mem (HDRP (PREV_BLKP s2.mem bp)) (PACK size2 0)
    let m2 := putW m1 (FTRP m1 (NEXT_BLKP m1 bp)) (PACK size2 0)
    ({ s2 with mem := m2 }, PREV_BLKP m2 bp)

/-- freelist_add: push bp onto the front of the free list (LIFO). -/
def freelist_add (s : MState) (bp : Nat) : MState :=
  let s1 := SET_PRED s bp s.heap_listp
  let s2 := SET_SUCC s1 bp s1.first_free
  let s3 :=
    if s2.first_free ≠ s2.heap_listp then SET_PRED s2 s2.first_free bp else s2
  { s3 with first_free := bp }

/-- extend_heap: grow the heap by the given number of 4-byte words (rounded up
to an even count), make the new region one free block, push it on the free
list, and coalesce.  Returns 0 (NULL) when the host refuses to grow. -/
def extend_heap (s : MState) (words : Nat) : MState × Nat :=
  let size := (if words % 2 = 1 then (words + 1) * 4 else words * 4) % W64
  let t := mem_sbrk s size
  if t.2 = SBRK_FAIL then (t.1, 0)
  else
    let bp := t.2
    let m1 := putW t.1.mem (HDRP bp) (PACK size 0)
    let m2 := putW m1 (FTRP m1 bp) (PACK size 0)
    let m3 := putW m2 (HDRP (NEXT_BLKP m2 bp)) (PACK 0 1)
    let s2 := { t.1 with mem := m3 }
    let s3 := freelist_add s2 bp
    coalesce s3 bp

/-- mm_init: create the empty heap (padding, prologue, epilogue), point the
globals at it, and extend by CHUNKSIZE bytes.  Returns -1 on error, 0 on
success.  As in the source, the global heap_listp receives mem_sbrk's
return value even when that value is the failure sentinel. -/
def mm_init (s : MState) : MState × Int :=
  let t := mem_sbrk s 16
  let s1 := { t.1 with heap_listp := t.2 }
  if t.2 = SBRK_FAIL then (s1, -1)
  else
    let p := t.2
    let m1 := putW s1.mem p 0
    let m2 := putW m1 (p + 4) (PACK 8 1)
    let m3 := putW m2 (p + 8) (PACK 8 1)
    let m4 := putW m3 (p + 12) (PACK 0 1)
    let s2 := { s1 with mem := m4, heap_listp := p + 8, first_free := p + 8 }
    let r := extend_heap s2 (CHUNKSIZE / 4)
    if r.2 = 0 then (r.1, -1) else (r.1, 0)

/-- One step bound for the free-list scan of find_fit. -/
def find_fit_aux (s : MState) (asize : Nat) : Nat → Nat → Nat
  | _, 0 => 0
  | bp, fuel + 1 =>
    if bp = s.heap_listp then 0
    else if GET_ALLOC s.mem (HDRP bp) = 0 ∧ asize ≤ GET_SIZE s.mem (HDRP bp) then bp
    else find_fit_aux s asize (GET_SUCC s bp) fuel

/-- find_fit: first-fit scan of the free list from first_free; 0 plays NULL.
The C loop has no bound of its own; the fuel (one more than the host limit)
exceeds the length of any terminating traversal, since distinct free blocks
of minimum size 24 within the heap are fewer than the heap's byte length. -/
def find_fit (s : MState) (asize : Nat) : Nat :=
  find_fit_aux s asize s.first_free (s.limit + 1)

/-- place: allocate asize bytes at the start of free block bp, splitting when
the remainder is at least the minimum block size (3 double words = 24). -/
def place (s : MState) (bp asize : Nat) : MState :=
  let csize := GET_SIZE s.mem (HDRP bp)
  let pred := GET_PRED s bp
  let succ := GET_SUCC s bp
  if 24 ≤ usub64 csize asize then
    let m1 := putW s.mem (HDRP bp) (PACK asize 1)
    let m2 := putW m1 (FTRP m1 bp) (PACK asize 1)
    let new_bp := NEXT_BLKP m2 bp
    let m3 := putW m2 (HDRP new_bp) (PACK (usub64 csize asize) 0)
    let m4 := putW m3 (FTRP m3 new_bp) (PACK (usub64 csize asize) 0)
    let s1 := { s with mem := m4 }
    let s2 := SET_PRED s1 new_bp pred
    let s3 := SET_SUCC s2 new_bp succ
    let s4 := if pred ≠ s3.heap_listp then SET_SUCC s3 pred new_bp else s3
    let s5 := if succ ≠ s4.heap_listp then SET_PRED s4 succ new_bp else s4
    if bp = s5.first_free then { s5 with first_free := new_bp } else s5
  else
    let m1 := putW s.mem (HDRP bp) (PACK csize 1)
    let m2 := putW m1 (FTRP m1 bp) (PACK csize 1)
    let s1 := { s with mem := m2 }
    if pred = s1.heap_listp then
      let s2 := { s1 with first_free := succ }
      if succ ≠ s2.heap_listp then SET_PRED s2 s2.first_free s2.heap_listp else s2
    else if succ ≠ s1.heap_listp then
      SET_PRED (SET_SUCC s1 pred succ) succ pred
    else
      SET_SUCC s1 pred succ

/-- The adjusted block size computed by malloc: requests of at most
MINBLKSIZE = 16 bytes become the 24-byte minimum block; larger requests get
double-word overhead added and are rounded up to a multiple of 8, in size_t
arithmetic. -/
def malloc_asize (size : Nat) : Nat :=
  if size ≤ 16 then 24
  else (8 * (((size + 8 + 7) % W64) / 8)) % W64

/-- malloc: allocate a block with at least size bytes of payload; 0 plays
NULL.  Lazily initializes the heap when heap_listp is 0, ignoring mm_init's
return value as the source does. -/
def malloc (s : MState) (size : Nat) : MState × Nat :=
  let s := if s.heap_listp = 0 then (mm_init s).1 else s
  if size = 0 then (s, 0)
  else
    let asize := malloc_asize size
    let bp := find_fit s asize
    if bp ≠ 0 then (place s bp asize, bp)
    else
      let extendsize := max asize CHUNKSIZE
      let r := extend_heap s (extendsize / 4)
      if r.2 = 0 then (r.1, 0) else (place r.1 r.2 asize, r.2)

/-- The part of free that runs after the size word has been read and the
lazy initialization has been resolved: clear the allocated bit in header and
footer, push onto the free list, coalesce. -/
def free_body (s : MState) (bp size : Nat) : MState :=
  let m1 := putW s.mem (HDRP bp) (PACK size 0)
  let m2 := putW m1 (FTRP m1 bp) (PACK size 0)
  let s1 := { s with mem := m2 }
  let s2 := freelist_add s1 bp
  (coalesce s2 bp).1

/-- free: mark the block free, push it on the free list, coalesce.  As in the
source, the size word is read before the lazy-initialization check runs. -/
def free (s : MState) (bp : Nat) : MState :=
  if bp = 0 then s
  else
    let size := GET_SIZE s.mem (HDRP bp)
    let s := if s.heap_listp = 0 then (mm_init s).1 else s
    free_body s bp size

/-- Ascending byte-by-byte copy of k bytes starting at byte index i. -/
def memcpy_aux (dst src : Nat) : Nat → Nat → Mem → Mem
  | _, 0, m => m
  | i, k + 1, m => memcpy_aux dst src (i + 1) k (writeByte m (dst + i) (readByte m (src + i)))

/-- memcpy(dst, src, n): ascending byte-by-byte copy. -/
def memcpy (m : Mem) (dst src n : Nat) : Mem := memcpy_aux dst src 0 n m

/-- Ascending fill of k bytes with v starting at byte index i. -/
def memset_aux (p v : Nat) : Nat → Nat → Mem → Mem
  | _, 0, m => m
  | i, k + 1, m => memset_aux p v (i + 1) k (writeByte m (p + i) v)

/-- memset(p, v, n): fill n bytes starting at p with v. -/
def memset (m : Mem) (p v n : Nat) : Mem := memset_aux p v 0 n m

/-- realloc: allocate fresh, copy min(size, old block size) bytes, free the
old block.  Size 0 behaves as free; NULL pointer behaves as malloc. -/
def realloc (s : MState) (ptr size : Nat) : MState × Nat :=
  if size = 0 then (free s ptr, 0)
  else if ptr = 0 then malloc s size
  else
    let r := malloc s size
    if r.2 = 0 then (r.1, 0)
    else
      let oldsize := GET_SIZE r.1.mem (HDRP ptr)
      let oldsize := if size < oldsize then size else oldsize
      let m := memcpy r.1.mem r.2 ptr oldsize
      let s2 := { r.1 with mem := m }
      (free s2 ptr, r.2)

/-- calloc: allocate nmemb * size bytes (size_t product, no overflow check)
and zero them.  As in the source, memset runs on malloc's result without a
null check. -/
def calloc (s : MState) (nmemb size : Nat) : MState × Nat :=
  let bytes := (nmemb * size) % W64
  let r := malloc s bytes
  let m := memset r.1.mem r.2 0 bytes
  ({ r.1 with mem := m }, r.2)

/-- The free-list traversal relation, read off the memory: starting at bp and
following successor links visits exactly the blocks of L, in order, and then
reaches the sentinel heap_listp. -/
def FLChain (s : MState) : Nat → List Nat → Bool
  | bp, [] => bp == s.heap_listp
  | bp, x :: L => bp == x && !(bp == s.heap_listp) && FLChain s (GET_SUCC s bp) L

/-- A concrete host state: heap region starting at address 1000, all memory
zero except the (heap-external) byte at address 5, growable up to the given
limit; allocator not yet initialized. -/
def host (limit : Nat) : MState :=
  { mem := fun a => if a = 5 then 42 else 0, brk := 1000, limit := limit,
    heap_listp := 0, first_free := 0 }

/-- A roomy initialized heap (prologue at 1004, sentinel 1008, one 512-byte
free block at 1016). -/
def heap0 : MState := (mm_init (host 100000)).1

/-- An initialized heap whose host allows no growth beyond the initial
16 + 512 bytes: any further extension fails. -/
def heapTight : MState := (mm_init (host 1528)).1

/-- heap0 after malloc(488), which consumes the whole 512-byte free block
(adjusted size 496, leftover 16 below the minimum): the free list is empty. -/
def heapFull : MState := (malloc heap0 488).1

/-- heapTight after malloc(16): a live 24-byte allocated block at 1016 and a
488-byte free block at 1040, with no room for the heap to grow further. -/
def heapTightA : MState := (malloc heapTight 16).1

/-- heap0 after malloc(16): block of size 24 allocated at 1016, remainder
free block of 488 bytes at 1040. -/
def heapA : MState := (malloc heap0 16).1

/-- The block tiling of the heap read off the memory: starting at payload
address a, the listed blocks (payload address, total size, allocated flag)
follow each other back to back, each with matching header and footer words,
sizes multiples of 8 and at least the 24-byte minimum, ending exactly at the
epilogue payload address e. -/
def BlocksOk (m : Mem) : Nat → List (Nat × Nat × Bool) → Nat → Bool
  | a, [], e => a == e
  | a, (b, sz, al) :: rest, e =>
    b == a && sz % 8 == 0 && decide (24 ≤ sz) &&
    getW m (a - 4) == sz + (if al then 1 else 0) &&
    getW m (a + sz - 8) == sz + (if al then 1 else 0) &&
    BlocksOk m (a + sz) rest e

/-- Global layout: prologue header and footer words (PACK(8,1) = 9) around
the sentinel address, epilogue header word (PACK(0,1) = 1) at the end of the
heap, and the block tiling in between. -/
def LayoutOk (s : MState) (bl : List (Nat × Nat × Bool)) : Bool :=
  getW s.mem (s.heap_listp - 4) == 9 &&
  getW s.mem s.heap_listp == 9 &&
  getW s.mem (s.brk - 4) == 1 &&
  BlocksOk s.mem (s.heap_listp + 8) bl s.brk

/-- Arithmetic side conditions: the sentinel is 8-aligned and at least 8, the
heap region is well formed and the whole growable region stays within 2^32
bytes of the sentinel (the pointer-compression precondition), below 2^64. -/
def BoundsOk (s : MState) : Bool :=
  s.heap_listp % 8 == 0 && decide (8 ≤ s.heap_listp) &&
  decide (s.heap_listp + 8 ≤ s.brk) && decide (s.brk ≤ s.limit) &&
  decide (s.limit < s.heap_listp + W32) &&
  decide (s.heap_listp + W32 ≤ W64)

/-- The doubly-linked free list read off the memory: from bp, following
successor links visits exactly the nodes of fl and ends at the sentinel,
and every node's predecessor link points at the node before it (the
sentinel before the head). -/
def FreeChainOk (s : MState) : Nat → Nat → List Nat → Bool
  | _, bp, [] => bp == s.heap_listp
  | prev, bp, x :: L =>
    bp == x && !(bp == s.heap_listp) && GET_PRED s bp == prev &&
    FreeChainOk s bp (GET_SUCC s bp) L

/-- The payload addresses of the free blocks of a tiling, in heap order. -/
def freeAddrs : List (Nat × Nat × Bool) → List Nat
  | [] => []
  | (a, _, false) :: rest => a :: freeAddrs rest
  | (_, _, true) :: rest => freeAddrs rest

/-- Two lists holding the same set of addresses. -/
def sameSetB (l1 l2 : List Nat) : Bool :=
  l1.all (fun a => l2.contains a) && l2.all (fun a => l1.contains a)

/-- No two physically adjacent blocks are both free (the prologue and
epilogue that bracket the tiling are always allocated). -/
def NoAdjFree : List (Nat × Nat × Bool) → Bool
  | [] => true
  | [_] => true
  | (a, sz, al) :: (b, sz2, al2) :: rest =>
    (al || al2) && NoAdjFree ((b, sz2, al2) :: rest)

/-- The allocator invariant, tying a state to an explicit block tiling bl and
free-list listing fl: layout and bounds hold, the free list is a well formed
doubly-linked chain visiting exactly fl, fl holds exactly the free blocks of
the tiling, and no two adjacent blocks are both free. -/
structure Inv (s : MState) (bl : List (Nat × Nat × Bool)) (fl : List Nat) : Prop where
  bounds : BoundsOk s = true
  layout : LayoutOk s bl = true
  chain : FreeChainOk s s.heap_listp s.first_free fl = true
  fid : sameSetB fl (freeAddrs bl) = true
  noadj : NoAdjFree bl = true

/-- A segment of the free chain: starting in position (prev, bp), following
successor links visits exactly the nodes of L and leaves the walk in
position (prev2, bp2). -/
def ChainSeg (s : MState) : Nat → Nat → List Nat → Nat → Nat → Bool
  | prev, bp, [], prev2, bp2 => prev == prev2 && bp == bp2
  | prev, bp, x :: L, prev2, bp2 =>
    bp == x && !(bp == s.heap_listp) && GET_PRED s bp == prev &&
    ChainSeg s bp (GET_SUCC s bp) L prev2 bp2

/-- Total byte size of a list of blocks. -/
def sizeSum : List (Nat × Nat × Bool) → Nat
  | [] => 0
  | x :: r => x.2.1 + sizeSum r

/-! ## Word-level memory lemmas -/

theorem readByte_lt (m : Mem) (a : Nat) : readByte m a < 256 := by
  simp only [readByte]; omega

theorem getW_lt (m : Mem) (p : Nat) : getW m p < W32 := by
  have h0 := readByte_lt m p
  have h1 := readByte_lt m (p + 1)
  have h2 := readByte_lt m (p + 2)
  have h3 := readByte_lt m (p + 3)
  simp only [getW, W32] at *
  omega

theorem readByte_putW_of_ne (m : Mem) (p v a : Nat)
    (h : a ≠ p ∧ a ≠ p + 1 ∧ a ≠ p + 2 ∧ a ≠ p + 3) :
    readByte (putW m p v) a = readByte m a := by
  simp only [putW, writeByte, readByte]
  rw [if_neg h.2.2.2, if_neg h.2.2.1, if_neg h.2.1, if_neg h.1]

theorem getW_putW_self (m : Mem) (p v : Nat) : getW (putW m p v) p = v % W32 := by
  simp only [getW, putW, writeByte, readByte, W32]
  split_ifs <;> omega

theorem getW_putW_of_disjoint (m : Mem) (p q v : Nat) (h : p + 4 ≤ q ∨ q + 4 ≤ p) :
    getW (putW m q v) p = getW m p := by
  simp only [getW]
  rw [readByte_putW_of_ne m q v p (by omega),
    readByte_putW_of_ne m q v (p + 1) (by omega),
    readByte_putW_of_ne m q v (p + 2) (by omega),
    readByte_putW_of_ne m q v (p + 3) (by omega)]

theorem PACK_zero (s : Nat) : PACK s 0 = s := by simp [PACK]

theorem PACK_one (s : Nat) (h : s % 2 = 0) : PACK s 1 = s + 1 := by
  obtain ⟨k, rfl⟩ : ∃ k, s = 2 * k := ⟨s / 2, by omega⟩
  have h2 := Nat.lor_bit false k true 0
  simpa [PACK, Nat.bit] using h2

theorem usub64_of_le (a b : Nat) (hba : b ≤ a) (ha : a < W64) : usub64 a b = a - b := by
  simp only [usub64, W64] at *
  omega

/-! ## Frame lemmas: which state fields each operation can change -/

theorem SET_PRED_brk (s : MState) (bp v : Nat) : (SET_PRED s bp v).brk = s.brk := rfl

theorem SET_SUCC_brk (s : MState) (bp v : Nat) : (SET_SUCC s bp v).brk = s.brk := rfl

theorem are_adjacent_brk (s : MState) (bp : Nat) (c : Bool) :
    (are_adjacent s bp c).brk = s.brk := by
  unfold are_adjacent
  split
  · rfl
  · dsimp only
    split <;> rfl

theorem not_adjacent_brk (s : MState) (bp : Nat) (c : Bool) :
    (not_adjacent s bp c).brk = s.brk := by
  unfold not_adjacent
  split
  · dsimp only
    split <;> rfl
  · dsimp only
    split <;> rfl

theorem coalesce_brk (s : MState) (bp : Nat) : ((coalesce s bp).1).brk = s.brk := by
  unfold coalesce
  dsimp only
  split
  · rfl
  · split
    · simp [are_adjacent_brk, not_adjacent_brk, apply_ite MState.brk]
    · split
      · simp [are_adjacent_brk, not_adjacent_brk, apply_ite MState.brk]
      · simp [are_adjacent_brk, not_adjacent_brk, apply_ite MState.brk]

theorem freelist_add_brk (s : MState) (bp : Nat) : (freelist_add s bp).brk = s.brk := by
  unfold freelist_add
  dsimp only
  split <;> rfl

theorem place_brk (s : MState) (bp asize : Nat) : (place s bp asize).brk = s.brk := by
  unfold place
  dsimp only
  split_ifs <;> rfl

/-! ## Arithmetic facts about the adjusted request size -/

theorem malloc_asize_dvd8 (size : Nat) : 8 ∣ malloc_asize size := by
  unfold malloc_asize
  split
  · decide
  · have h64 : (8 : Nat) ∣ W64 := by decide
    exact Nat.dvd_mod_iff h64 |>.mpr ⟨_, rfl⟩

theorem malloc_asize_lt (size : Nat) : malloc_asize size < W64 := by
  unfold malloc_asize
  split
  · decide
  · exact Nat.mod_lt _ (by decide)

/-! ## Heap extension on multiples of 8 -/

theorem extend_words_exact (k : Nat) (h8 : 8 ∣ k) (hlt : k < W64) :
    (if (k / 4) % 2 = 1 then (k / 4 + 1) * 4 else (k / 4) * 4) % W64 = k := by
  obtain ⟨j, rfl⟩ := h8
  have : (8 * j / 4) % 2 = 0 := by omega
  rw [if_neg (by omega)]
  have hj : 8 * j / 4 * 4 = 8 * j := by omega
  rw [hj, Nat.mod_eq_of_lt hlt]

theorem extend_heap_fail (s : MState) (k : Nat) (h8 : 8 ∣ k) (hlt : k < W64)
    (hoom : s.limit < s.brk + k) :
    extend_heap s (k / 4) = (s, 0) := by
  have hsb : mem_sbrk s k = (s, SBRK_FAIL) := by
    unfold mem_sbrk
    rw [if_neg (by omega)]
  simp only [extend_heap]
  rw [extend_words_exact k h8 hlt, hsb]
  simp

theorem extend_heap_brk (s : MState) (k : Nat) (h8 : 8 ∣ k) (hlt : k < W64)
    (hok : s.brk + k ≤ s.limit) :
    ((extend_heap s (k / 4)).1).brk = s.brk + k := by
  have hsb : mem_sbrk s k = ({ s with brk := s.brk + k }, s.brk) := by
    unfold mem_sbrk
    rw [if_pos hok]
  simp only [extend_heap]
  rw [extend_words_exact k h8 hlt, hsb]
  dsimp only
  split
  · rfl
  · rw [coalesce_brk, freelist_add_brk]

theorem max_asize_chunk_dvd8 (size : Nat) : 8 ∣ max (malloc_asize size) CHUNKSIZE := by
  rcases max_choice (malloc_asize size) CHUNKSIZE with h | h <;> rw [h]
  · exact malloc_asize_dvd8 size
  · decide

theorem max_asize_chunk_lt (size : Nat) : max (malloc_asize size) CHUNKSIZE < W64 := by
  rcases max_choice (malloc_asize size) CHUNKSIZE with h | h <;> rw [h]
  · exact malloc_asize_lt size
  · decide

/-- When the free list has no fit and the host refuses the growth request,
malloc fails with a null result and a completely unchanged state. -/
theorem malloc_oom (s : MState) (size : Nat) (hhl : s.heap_listp ≠ 0) (h0 : size ≠ 0)
    (hnofit : find_fit s (malloc_asize size) = 0)
    (hoom : s.limit < s.brk + max (malloc_asize size) CHUNKSIZE) :
    malloc s size = (s, 0) := by
  have hext := extend_heap_fail s _ (max_asize_chunk_dvd8 size) (max_asize_chunk_lt size) hoom
  simp only [malloc, if_neg hhl, if_neg h0, hnofit, hext]
  simp

/-- C8: allocate adjusts every request as the claim states: size 0 yields no
allocation (null result); size at most 16 adjusts to exactly 24 bytes; any
larger size is rounded up, with header and footer overhead added, to the
nearest multiple of 8. -/
theorem C8_request_sizing (s : MState) (size : Nat) (hov : size + 15 < W64) :
    (malloc s 0).2 = 0 ∧
    (size ≤ 16 → malloc_asize size = 24) ∧
    (16 < size → malloc_asize size = 8 * ((size + 8 + 7) / 8)) := by
  refine ⟨by simp [malloc], fun h => by simp [malloc_asize, h], fun h => ?_⟩
  have hn : ¬ size ≤ 16 := by omega
  simp only [malloc_asize, if_neg hn]
  rw [Nat.mod_eq_of_lt hov, Nat.mod_eq_of_lt]
  have h1 : 8 * ((size + 8 + 7) / 8) ≤ size + 15 := by omega
  simp only [W64] at *
  omega

theorem C8_request_sizing_witness :
    (20 : Nat) + 15 < W64 ∧
      ((malloc heap0 0).2 = 0 ∧ ((20 : Nat) ≤ 16 → malloc_asize 20 = 24) ∧
        (16 < 20 → malloc_asize 20 = 8 * ((20 + 8 + 7) / 8))) :=
  ⟨by decide, C8_request_sizing heap0 20 (by decide)⟩

/-- C4 counterexample: on a heap whose free list is empty, malloc(8)
(adjusted size 24) finds no fit and extends the heap by
max(24, CHUNKSIZE) = 512 bytes — not by the max(asize, 4096) the claim
states. -/
theorem C4_counterexample :
    find_fit heapFull (malloc_asize 8) = 0 ∧
    (malloc heapFull 8).1.brk = heapFull.brk + max (malloc_asize 8) CHUNKSIZE ∧
    (malloc heapFull 8).1.brk ≠ heapFull.brk + max (malloc_asize 8) 4096 := by
  decide

/-- C4 (amended): when malloc finds no fitting free block it extends the heap
by max(asize, CHUNKSIZE = 512) bytes (already a multiple of the word
alignment); if the growth primitive fails the whole operation fails with a
null result and an untouched state; otherwise the block is placed in the
newly extended (possibly coalesced) free region. -/
theorem C4_extend_on_no_fit (s : MState) (size : Nat) (hhl : s.heap_listp ≠ 0)
    (h0 : size ≠ 0) (hnofit : find_fit s (malloc_asize size) = 0) :
    (s.limit < s.brk + max (malloc_asize size) CHUNKSIZE → malloc s size = (s, 0)) ∧
    (s.brk + max (malloc_asize size) CHUNKSIZE ≤ s.limit →
      (malloc s size).1.brk = s.brk + max (malloc_asize size) CHUNKSIZE) ∧
    ((extend_heap s (max (malloc_asize size) CHUNKSIZE / 4)).2 ≠ 0 →
      malloc s size =
        (place (extend_heap s (max (malloc_asize size) CHUNKSIZE / 4)).1
          (extend_heap s (max (malloc_asize size) CHUNKSIZE / 4)).2 (malloc_asize size),
         (extend_heap s (max (malloc_asize size) CHUNKSIZE / 4)).2)) := by
  refine ⟨fun hoom => malloc_oom s size hhl h0 hnofit hoom, fun hok => ?_, fun hnz => ?_⟩
  · simp only [malloc, if_neg hhl, if_neg h0, hnofit]
    simp only [ne_eq, not_true_eq_false, if_false, reduceIte]
    have hbrk := extend_heap_brk s _ (max_asize_chunk_dvd8 size) (max_asize_chunk_lt size) hok
    split
    · exact hbrk
    · rw [place_brk]
      exact hbrk
  · simp only [malloc, if_neg hhl, if_neg h0, hnofit]
    simp only [ne_eq, not_true_eq_false, if_false, reduceIte]
    rw [if_neg hnz]

theorem C4_extend_on_no_fit_witness :
    heapFull.heap_listp ≠ 0 ∧ (8 : Nat) ≠ 0 ∧ find_fit heapFull (malloc_asize 8) = 0 ∧
      ((heapFull.limit < heapFull.brk + max (malloc_asize 8) CHUNKSIZE →
          malloc heapFull 8 = (heapFull, 0)) ∧
        (heapFull.brk + max (malloc_asize 8) CHUNKSIZE ≤ heapFull.limit →
          (malloc heapFull 8).1.brk = heapFull.brk + max (malloc_asize 8) CHUNKSIZE) ∧
        ((extend_heap heapFull (max (malloc_asize 8) CHUNKSIZE / 4)).2 ≠ 0 →
          malloc heapFull 8 =
            (place (extend_heap heapFull (max (malloc_asize 8) CHUNKSIZE / 4)).1
              (extend_heap heapFull (max (malloc_asize 8) CHUNKSIZE / 4)).2 (malloc_asize 8),
             (extend_heap heapFull (max (malloc_asize 8) CHUNKSIZE / 4)).2))) :=
  by
  have h1 : heapFull.heap_listp ≠ 0 := by decide
  have h2 : (8 : Nat) ≠ 0 := by decide
  have h3 : find_fit heapFull (malloc_asize 8) = 0 := by decide
  exact ⟨h1, h2, h3, C4_extend_on_no_fit heapFull 8 h1 h2 h3⟩

/-- C9: if the fresh allocation inside realloc fails, realloc returns the
null failure result and the state — hence the original block's header,
footer, payload bytes and free-list membership — is completely untouched. -/
theorem C9_realloc_failure_untouched (s : MState) (ptr size : Nat)
    (hhl : s.heap_listp ≠ 0) (hptr : ptr ≠ 0) (hsz : size ≠ 0)
    (hnofit : find_fit s (malloc_asize size) = 0)
    (hoom : s.limit < s.brk + max (malloc_asize size) CHUNKSIZE) :
    realloc s ptr size = (s, 0) := by
  have hm := malloc_oom s size hhl hsz hnofit hoom
  simp only [realloc, if_neg hsz, if_neg hptr, hm]
  simp

theorem C9_realloc_failure_untouched_witness :
    heapTightA.heap_listp ≠ 0 ∧ (1016 : Nat) ≠ 0 ∧ (1000 : Nat) ≠ 0 ∧
      find_fit heapTightA (malloc_asize 1000) = 0 ∧
      heapTightA.limit < heapTightA.brk + max (malloc_asize 1000) CHUNKSIZE ∧
      realloc heapTightA 1016 1000 = (heapTightA, 0) :=
  by
  have h1 : heapTightA.heap_listp ≠ 0 := by decide
  have h2 : (1016 : Nat) ≠ 0 := by decide
  have h3 : (1000 : Nat) ≠ 0 := by decide
  have h4 : find_fit heapTightA (malloc_asize 1000) = 0 := by decide
  have h5 : heapTightA.limit < heapTightA.brk + max (malloc_asize 1000) CHUNKSIZE := by
    decide
  exact ⟨h1, h2, h3, h4, h5, C9_realloc_failure_untouched heapTightA 1016 1000 h1 h2 h3 h4 h5⟩

theorem SET_PRED_heap_listp (s : MState) (bp v : Nat) :
    (SET_PRED s bp v).heap_listp = s.heap_listp := rfl

theorem SET_SUCC_heap_listp (s : MState) (bp v : Nat) :
    (SET_SUCC s bp v).heap_listp = s.heap_listp := rfl

theorem are_adjacent_heap_listp (s : MState) (bp : Nat) (c : Bool) :
    (are_adjacent s bp c).heap_listp = s.heap_listp := by
  unfold are_adjacent
  split
  · rfl
  · dsimp only
    split <;> rfl

theorem not_adjacent_heap_listp (s : MState) (bp : Nat) (c : Bool) :
    (not_adjacent s bp c).heap_listp = s.heap_listp := by
  unfold not_adjacent
  split
  · dsimp only
    split <;> rfl
  · dsimp only
    split <;> rfl

theorem coalesce_heap_listp (s : MState) (bp : Nat) :
    ((coalesce s bp).1).heap_listp = s.heap_listp := by
  unfold coalesce
  dsimp only
  split
  · rfl
  · split
    · simp [are_adjacent_heap_listp, not_adjacent_heap_listp, apply_ite MState.heap_listp]
    · split
      · simp [are_adjacent_heap_listp, not_adjacent_heap_listp, apply_ite MState.heap_listp]
      · simp [are_adjacent_heap_listp, not_adjacent_heap_listp, apply_ite MState.heap_listp]

theorem freelist_add_heap_listp (s : MState) (bp : Nat) :
    (freelist_add s bp).heap_listp = s.heap_listp := by
  unfold freelist_add
  dsimp only
  split <;> rfl

theorem mem_sbrk_heap_listp (s : MState) (n : Nat) :
    ((mem_sbrk s n).1).heap_listp = s.heap_listp := by
  unfold mem_sbrk
  split <;> rfl

theorem extend_heap_heap_listp (s : MState) (w : Nat) :
    ((extend_heap s w).1).heap_listp = s.heap_listp := by
  unfold extend_heap
  dsimp only
  split <;>
  · split
    · rw [mem_sbrk_heap_listp]
    · rw [coalesce_heap_listp, freelist_add_heap_listp]
      exact mem_sbrk_heap_listp s _

/-- mm_init always leaves heap_listp nonzero: on host failure it holds the
(huge) failure sentinel, on success an address 8 past the heap start. -/
theorem mm_init_heap_listp_ne (s : MState) : (mm_init s).1.heap_listp ≠ 0 := by
  by_cases hsb : s.brk + 16 ≤ s.limit
  · simp only [mm_init, mem_sbrk, if_pos hsb]
    split
    · next h =>
      dsimp only
      rw [h]
      simp [SBRK_FAIL, W64]
    · split <;>
        · dsimp only
          rw [extend_heap_heap_listp]
          dsimp only
          omega
  · simp only [mm_init, mem_sbrk, if_neg hsb]
    simp [SBRK_FAIL, W64]

/-- C10: with the heap not yet set up (heap_listp = 0), malloc first runs the
initializer itself and then proceeds exactly as it would on the initialized
state; free self-initializes only for non-null addresses, and only after the
block's size word has already been read from the pre-initialization memory;
free(null) on an uninitialized heap changes nothing. -/
theorem C10_lazy_init (s : MState) (size bp : Nat) (h : s.heap_listp = 0)
    (hbp : bp ≠ 0) :
    malloc s size = malloc (mm_init s).1 size ∧
    free s bp = free_body (mm_init s).1 bp (GET_SIZE s.mem (HDRP bp)) ∧
    free s 0 = s := by
  have hne := mm_init_heap_listp_ne s
  refine ⟨?_, ?_, by simp [free]⟩
  · conv_lhs => simp only [malloc, if_pos h]
    conv_rhs => simp only [malloc, if_neg hne]
  · simp only [free, if_neg hbp, if_pos h]

theorem C10_lazy_init_witness :
    (host 100000).heap_listp = 0 ∧ (1016 : Nat) ≠ 0 ∧
      (malloc (host 100000) 16 = malloc (mm_init (host 100000)).1 16 ∧
        free (host 100000) 1016 =
          free_body (mm_init (host 100000)).1 1016
            (GET_SIZE (host 100000).mem (HDRP 1016)) ∧
        free (host 100000) 0 = host 100000) :=
  by
  have h1 : (host 100000).heap_listp = 0 := by decide
  have h2 : (1016 : Nat) ≠ 0 := by decide
  exact ⟨h1, h2, C10_lazy_init (host 100000) 16 1016 h1 h2⟩

/-- The first-fit scan, characterized against an explicit listing L of the
free-list chain: it returns the first block of L whose size is at least
asize, and 0 (null) when no block of L fits. -/
theorem find_fit_aux_spec (s : MState) (asize : Nat) (L : List Nat) :
    ∀ (bp fuel : Nat), FLChain s bp L = true → L.length < fuel →
      (∀ b ∈ L, GET_ALLOC s.mem (HDRP b) = 0) →
      find_fit_aux s asize bp fuel =
        (match L.find? (fun b => asize ≤ GET_SIZE s.mem (HDRP b)) with
          | some b => b
          | none => 0) := by
  induction L with
  | nil =>
    intro bp fuel hch hfuel _
    match fuel, hfuel with
    | f + 1, _ =>
      simp only [FLChain, beq_iff_eq] at hch
      simp [find_fit_aux, hch]
  | cons x R ih =>
    intro bp fuel hch hfuel hfree
    match fuel, hfuel with
    | f + 1, hfuel =>
      simp only [FLChain, Bool.and_eq_true, beq_iff_eq, Bool.not_eq_eq_eq_not,
        Bool.not_true, beq_eq_false_iff_ne, ne_eq] at hch
      obtain ⟨⟨hbx, hbs⟩, hrest⟩ := hch
      subst hbx
      unfold find_fit_aux
      rw [if_neg hbs]
      by_cases hfit : asize ≤ GET_SIZE s.mem (HDRP bp)
      · rw [if_pos ⟨hfree bp (by simp), hfit⟩]
        simp [List.find?, hfit]
      · rw [if_neg (by tauto)]
        have := ih (GET_SUCC s bp) f hrest (by simpa using hfuel)
          (fun b hb => hfree b (by simp [hb]))
        rw [this]
        simp [List.find?, hfit]

/-- C6: find_fit scans the free list from the head in list (LIFO) order and
returns the first block whose size is at least the requested adjusted size,
returning none (null) when the list is exhausted; no lookahead or best-fit
refinement is applied. -/
theorem C6_find_fit_first_fit (s : MState) (asize : Nat) (L : List Nat)
    (hch : FLChain s s.first_free L = true) (hlen : L.length ≤ s.limit)
    (hfree : ∀ b ∈ L, GET_ALLOC s.mem (HDRP b) = 0) :
    find_fit s asize =
      (match L.find? (fun b => asize ≤ GET_SIZE s.mem (HDRP b)) with
        | some b => b
        | none => 0) :=
  find_fit_aux_spec s asize L s.first_free (s.limit + 1) hch (by omega) hfree

theorem C6_find_fit_first_fit_witness :
    FLChain heap0 heap0.first_free [1016] = true ∧ [1016].length ≤ heap0.limit ∧
      (∀ b ∈ [1016], GET_ALLOC heap0.mem (HDRP b) = 0) ∧
      find_fit heap0 24 =
        (match [1016].find? (fun b => 24 ≤ GET_SIZE heap0.mem (HDRP b)) with
          | some b => b
          | none => 0) :=
  by
  have h1 : FLChain heap0 heap0.first_free [1016] = true := by decide
  have h2 : [1016].length ≤ heap0.limit := by decide
  have h3 : ∀ b ∈ [1016], GET_ALLOC heap0.mem (HDRP b) = 0 := by decide
  exact ⟨h1, h2, h3, C6_find_fit_first_fit heap0 24 [1016] h1 h2 h3⟩

theorem readByte_writeByte_self (m : Mem) (a v : Nat) :
    readByte (writeByte m a v) a = v % 256 := by
  simp [readByte, writeByte]

theorem readByte_writeByte_ne (m : Mem) (a v b : Nat) (h : b ≠ a) :
    readByte (writeByte m a v) b = readByte m b := by
  simp [readByte, writeByte, h]

theorem writeByte_ne (m : Mem) (a v b : Nat) (h : b ≠ a) : writeByte m a v b = m b := by
  simp [writeByte, h]

/-- memcpy writes nothing outside the destination range. -/
theorem memcpy_aux_outside (dst src : Nat) :
    ∀ (k i : Nat) (m : Mem) (a : Nat), a < dst + i ∨ dst + i + k ≤ a →
      memcpy_aux dst src i k m a = m a := by
  intro k
  induction k with
  | zero => intro i m a _; rfl
  | succ k ih =>
    intro i m a ha
    show memcpy_aux dst src (i + 1) k (writeByte m (dst + i) (readByte m (src + i))) a = m a
    rw [ih (i + 1) _ a (by omega), writeByte_ne _ _ _ _ (by omega)]

/-- On disjoint regions, byte j of the destination after memcpy equals byte j
of the source beforehand. -/
theorem memcpy_aux_read (dst src n : Nat) (hdisj : dst + n ≤ src ∨ src + n ≤ dst) :
    ∀ (k i : Nat) (m : Mem) (j : Nat), i + k ≤ n → i ≤ j → j < i + k →
      memcpy_aux dst src i k m (dst + j) = readByte m (src + j) := by
  intro k
  induction k with
  | zero => intro i m j _ _ h; omega
  | succ k ih =>
    intro i m j hkn hij hjk
    show memcpy_aux dst src (i + 1) k (writeByte m (dst + i) (readByte m (src + i)))
        (dst + j) = readByte m (src + j)
    rcases Nat.eq_or_lt_of_le hij with hji | hji
    · subst hji
      rw [memcpy_aux_outside dst src k (i + 1) _ (dst + i) (by omega)]
      simp [writeByte, readByte]
    · rw [ih (i + 1) _ j (by omega) (by omega) (by omega),
        readByte_writeByte_ne _ _ _ _ (by omega)]

theorem memcpy_outside (m : Mem) (dst src n a : Nat) (h : a < dst ∨ dst + n ≤ a) :
    memcpy m dst src n a = m a :=
  memcpy_aux_outside dst src n 0 m a (by omega)

theorem memcpy_read (m : Mem) (dst src n : Nat) (hdisj : dst + n ≤ src ∨ src + n ≤ dst)
    (i : Nat) (hi : i < n) :
    memcpy m dst src n (dst + i) = readByte m (src + i) :=
  memcpy_aux_read dst src n hdisj n 0 m i (by omega) (by omega) (by omega)

theorem if_lt_eq_min (a b : Nat) : (if a < b then a else b) = min a b := by
  rcases Nat.lt_or_ge a b with h | h
  · rw [if_pos h, Nat.min_eq_left (by omega)]
  · rw [if_neg (by omega), Nat.min_eq_right h]

/-- C3 counterexample: on heapA the live block at 1016 has total size 24,
hence payload size 16.  realloc(1016, 20) returns the fresh block 1040 and
writes byte 1040 + 16 — one past the min(old payload, new size) = 16 bytes
the claim permits — with the old block's footer byte 25; a copy of exactly
min(old payload, size) bytes would have left that byte 0 as it was. -/
theorem C3_counterexample :
    GET_SIZE heapA.mem (HDRP 1016) = 24 ∧
    (realloc heapA 1016 20).2 = 1040 ∧
    heapA.mem (1040 + 16) = 0 ∧
    (realloc heapA 1016 20).1.mem (1040 + 16) = 25 ∧
    (25 : Nat) ≠ 0 := by
  decide

/-- C3 (amended): for a non-null address and nonzero size, when the fresh
allocation succeeds, realloc copies exactly min(old BLOCK size, size) bytes
— the old size read from the header counts the 8 bytes of boundary-tag
overhead besides the payload — from the old block into the new block, then
deallocates the old block and returns the new block's address: the final
state is free applied at the old pointer to the copied state, the copied
range holds the old bytes (when the two regions are disjoint) and no byte
outside the copied range is touched by the copy. -/
theorem C3_realloc_copy (s : MState) (ptr size : Nat) (hptr : ptr ≠ 0)
    (hsz : size ≠ 0) (hnp : (malloc s size).2 ≠ 0) :
    realloc s ptr size =
      (free { (malloc s size).1 with
          mem := memcpy (malloc s size).1.mem (malloc s size).2 ptr
            (min size (GET_SIZE (malloc s size).1.mem (HDRP ptr))) } ptr,
       (malloc s size).2) ∧
    (∀ i < min size (GET_SIZE (malloc s size).1.mem (HDRP ptr)),
      ((malloc s size).2 + min size (GET_SIZE (malloc s size).1.mem (HDRP ptr)) ≤ ptr ∨
       ptr + min size (GET_SIZE (malloc s size).1.mem (HDRP ptr)) ≤ (malloc s size).2) →
      memcpy (malloc s size).1.mem (malloc s size).2 ptr
          (min size (GET_SIZE (malloc s size).1.mem (HDRP ptr)))
          ((malloc s size).2 + i) =
        readByte (malloc s size).1.mem (ptr + i)) ∧
    (∀ a, a < (malloc s size).2 ∨
        (malloc s size).2 + min size (GET_SIZE (malloc s size).1.mem (HDRP ptr)) ≤ a →
      memcpy (malloc s size).1.mem (malloc s size).2 ptr
          (min size (GET_SIZE (malloc s size).1.mem (HDRP ptr))) a =
        (malloc s size).1.mem a) := by
  refine ⟨?_, fun i hi hdisj => memcpy_read _ _ _ _ hdisj i hi,
    fun a ha => memcpy_outside _ _ _ _ a ha⟩
  simp only [realloc, if_neg hsz, if_neg hptr, if_neg hnp, if_lt_eq_min]

theorem C3_realloc_copy_witness :
    (1016 : Nat) ≠ 0 ∧ (20 : Nat) ≠ 0 ∧ (malloc heapA 20).2 ≠ 0 ∧
      (realloc heapA 1016 20 =
        (free { (malloc heapA 20).1 with
            mem := memcpy (malloc heapA 20).1.mem (malloc heapA 20).2 1016
              (min 20 (GET_SIZE (malloc heapA 20).1.mem (HDRP 1016))) } 1016,
         (malloc heapA 20).2) ∧
       (∀ i < min 20 (GET_SIZE (malloc heapA 20).1.mem (HDRP 1016)),
         ((malloc heapA 20).2 + min 20 (GET_SIZE (malloc heapA 20).1.mem (HDRP 1016)) ≤ 1016 ∨
          1016 + min 20 (GET_SIZE (malloc heapA 20).1.mem (HDRP 1016)) ≤ (malloc heapA 20).2) →
         memcpy (malloc heapA 20).1.mem (malloc heapA 20).2 1016
             (min 20 (GET_SIZE (malloc heapA 20).1.mem (HDRP 1016)))
             ((malloc heapA 20).2 + i) =
           readByte (malloc heapA 20).1.mem (1016 + i)) ∧
       (∀ a, a < (malloc heapA 20).2 ∨
           (malloc heapA 20).2 + min 20 (GET_SIZE (malloc heapA 20).1.mem (HDRP 1016)) ≤ a →
         memcpy (malloc heapA 20).1.mem (malloc heapA 20).2 1016
             (min 20 (GET_SIZE (malloc heapA 20).1.mem (HDRP 1016))) a =
           (malloc heapA 20).1.mem a)) :=
  by
  have h1 : (1016 : Nat) ≠ 0 := by decide
  have h2 : (20 : Nat) ≠ 0 := by decide
  have h3 : (malloc heapA 20).2 ≠ 0 := by decide
  exact ⟨h1, h2, h3, C3_realloc_copy heapA 1016 20 h1 h2 h3⟩

theorem comp_roundtrip (hl val : Nat) (h1 : hl ≤ val) (h2 : val < hl + W32)
    (h3 : hl + W32 ≤ W64) :
    COMP_ADDRESS hl (COMP_OFFSET hl val % W32) = val := by
  simp only [COMP_ADDRESS, COMP_OFFSET, W32, W64] at *
  omega

theorem getW_putW_pack (m : Mem) (p sz a : Nat) (h8 : sz % 8 = 0) (ha : a ≤ 1)
    (hlt : sz + a < W32) :
    getW (putW m p (PACK sz a)) p = sz + a := by
  rcases Nat.le_one_iff_eq_zero_or_eq_one.mp ha with rfl | rfl
  · rw [PACK_zero, getW_putW_self, Nat.mod_eq_of_lt (by omega)]
    omega
  · rw [PACK_one sz (by omega), getW_putW_self, Nat.mod_eq_of_lt hlt]

theorem GET_SIZE_of_getW (m : Mem) (p sz a : Nat) (hw : getW m p = sz + a)
    (h8 : sz % 8 = 0) (ha : a ≤ 1) : GET_SIZE m p = sz := by
  simp only [GET_SIZE, hw]
  omega

theorem GET_ALLOC_of_getW (m : Mem) (p sz a : Nat) (hw : getW m p = sz + a)
    (h8 : sz % 8 = 0) (ha : a ≤ 1) : GET_ALLOC m p = a := by
  simp only [GET_ALLOC, hw]
  omega

/-- The exact dataflow of place in the splitting branch: header and footer of
the allocated part, header and footer of the leftover free block, its two
link fields, the conditional neighbor relinks, and the conditional head
update, as one explicit state. -/
theorem place_split_eq (s : MState) (bp asize csize pred succ : Nat)
    (hcs : GET_SIZE s.mem (HDRP bp) = csize)
    (hpred : GET_PRED s bp = pred) (hsucc : GET_SUCC s bp = succ)
    (h8c : csize % 8 = 0) (h8a : asize % 8 = 0) (hbp8 : 8 ≤ bp)
    (ha24 : 24 ≤ asize) (hac : asize ≤ csize) (hcW : csize < W32)
    (hsplit : 24 ≤ csize - asize) :
    place s bp asize =
      { s with
        mem :=
          (fun f => if succ ≠ s.heap_listp then
              putW f succ (COMP_OFFSET s.heap_listp (bp + asize)) else f)
          ((fun g => if pred ≠ s.heap_listp then
              putW g (pred + 4) (COMP_OFFSET s.heap_listp (bp + asize)) else g)
            (putW
              (putW
                (putW
                  (putW
                    (putW
                      (putW s.mem (bp - 4) (PACK asize 1))
                      (bp + asize - 8) (PACK asize 1))
                    (bp + asize - 4) (PACK (csize - asize) 0))
                  (bp + csize - 8) (PACK (csize - asize) 0))
                (bp + asize) (COMP_OFFSET s.heap_listp pred))
              (bp + asize + 4) (COMP_OFFSET s.heap_listp succ))),
        first_free := if bp = s.first_free then bp + asize else s.first_free } := by
  have hcn : csize < 4294967296 := by simpa [W32] using hcW
  have hW64c : csize < W64 := by simp only [W64]; omega
  have hcs2 : GET_SIZE s.mem (bp - 4) = csize := by simpa [HDRP] using hcs
  have hg1 : getW (putW s.mem (bp - 4) (PACK asize 1)) (bp - 4) = asize + 1 :=
    getW_putW_pack _ _ _ _ h8a (by omega) (by simp only [W32]; omega)
  have g1 : GET_SIZE (putW s.mem (bp - 4) (PACK asize 1)) (bp - 4) = asize :=
    GET_SIZE_of_getW _ _ _ 1 hg1 h8a (by omega)
  have hg2 : getW (putW (putW s.mem (bp - 4) (PACK asize 1)) (bp + asize - 8) (PACK asize 1))
      (bp - 4) = asize + 1 := by
    rw [getW_putW_of_disjoint _ _ _ _ (by omega)]
    exact hg1
  have g2 : GET_SIZE (putW (putW s.mem (bp - 4) (PACK asize 1)) (bp + asize - 8) (PACK asize 1))
      (bp - 4) = asize :=
    GET_SIZE_of_getW _ _ _ 1 hg2 h8a (by omega)
  have hg3 : getW (putW (putW (putW s.mem (bp - 4) (PACK asize 1)) (bp + asize - 8)
      (PACK asize 1)) (bp + asize - 4) (PACK (csize - asize) 0)) (bp + asize - 4) =
      csize - asize + 0 :=
    getW_putW_pack _ _ _ _ (by omega) (by omega) (by simp only [W32]; omega)
  have g3 : GET_SIZE (putW (putW (putW s.mem (bp - 4) (PACK asize 1)) (bp + asize - 8)
      (PACK asize 1)) (bp + asize - 4) (PACK (csize - asize) 0)) (bp + asize - 4) =
      csize - asize :=
    GET_SIZE_of_getW _ _ _ 0 hg3 (by omega) (by omega)
  simp only [place, HDRP, FTRP, NEXT_BLKP, SET_PRED, SET_SUCC, hcs2, hpred, hsucc]
  rw [usub64_of_le csize asize hac hW64c, if_pos hsplit]
  rw [g1, g2, g3]
  rw [show bp + asize + (csize - asize) - 8 = bp + csize - 8 from by omega]
  simp only [apply_ite MState.mem, apply_ite MState.first_free,
    apply_ite MState.heap_listp, ite_self]
  split <;> split <;> split <;> simp

/-- Postconditions of place in the splitting branch, read off the explicit
state of place_split_eq: allocated header and footer hold asize with the
allocated bit; the leftover block at bp + asize has header and footer with
the leftover size and a clear bit; the leftover block inherits pred and succ
in place; non-sentinel neighbors are relinked at the new block; the head
moves to the new block exactly when bp was the head. -/
theorem place_split_spec (s : MState) (bp asize csize pred succ : Nat)
    (hcs : GET_SIZE s.mem (HDRP bp) = csize)
    (hpred : GET_PRED s bp = pred) (hsucc : GET_SUCC s bp = succ)
    (h8bp : bp % 8 = 0) (h8c : csize % 8 = 0) (h8a : asize % 8 = 0)
    (ha24 : 24 ≤ asize) (hac : asize ≤ csize) (hcW : csize < W32)
    (hhl8 : s.heap_listp % 8 = 0) (hhlo : 8 ≤ s.heap_listp)
    (hhlbp : s.heap_listp + 8 ≤ bp) (hbW : bp + csize < s.heap_listp + W32)
    (hWW : s.heap_listp + W32 ≤ W64)
    (hplo : pred = s.heap_listp ∨ (pred % 8 = 0 ∧ s.heap_listp + 8 ≤ pred ∧
      pred < s.heap_listp + W32 ∧ (pred + 24 ≤ bp ∨ bp + csize ≤ pred)))
    (hslo : succ = s.heap_listp ∨ (succ % 8 = 0 ∧ s.heap_listp + 8 ≤ succ ∧
      succ < s.heap_listp + W32 ∧ (succ + 24 ≤ bp ∨ bp + csize ≤ succ)))
    (hsplit : 24 ≤ csize - asize) :
    getW (place s bp asize).mem (HDRP bp) = asize + 1 ∧
    getW (place s bp asize).mem (bp + asize - 8) = asize + 1 ∧
    getW (place s bp asize).mem (HDRP (bp + asize)) = csize - asize ∧
    getW (place s bp asize).mem (bp + csize - 8) = csize - asize ∧
    GET_PRED (place s bp asize) (bp + asize) = pred ∧
    GET_SUCC (place s bp asize) (bp + asize) = succ ∧
    (pred ≠ s.heap_listp → GET_SUCC (place s bp asize) pred = bp + asize) ∧
    (succ ≠ s.heap_listp → GET_PRED (place s bp asize) succ = bp + asize) ∧
    (place s bp asize).first_free =
      (if bp = s.first_free then bp + asize else s.first_free) := by
  have hW32pos : 0 < W32 := by simp only [W32]; omega
  have hpb : s.heap_listp ≤ pred ∧ pred < s.heap_listp + W32 := by
    rcases hplo with rfl | ⟨_, h1, h2, _⟩
    · exact ⟨Nat.le_refl _, by omega⟩
    · exact ⟨by omega, h2⟩
  have hsb : s.heap_listp ≤ succ ∧ succ < s.heap_listp + W32 := by
    rcases hslo with rfl | ⟨_, h1, h2, _⟩
    · exact ⟨Nat.le_refl _, by omega⟩
    · exact ⟨by omega, h2⟩
  rw [place_split_eq s bp asize csize pred succ hcs hpred hsucc h8c h8a (by omega)
    ha24 hac hcW hsplit]
  simp only [HDRP, GET_PRED, GET_SUCC]
  set C := putW (putW (putW (putW (putW (putW s.mem (bp - 4) (PACK asize 1))
    (bp + asize - 8) (PACK asize 1)) (bp + asize - 4) (PACK (csize - asize) 0))
    (bp + csize - 8) (PACK (csize - asize) 0)) (bp + asize)
    (COMP_OFFSET s.heap_listp pred)) (bp + asize + 4)
    (COMP_OFFSET s.heap_listp succ) with hC
  set G := if pred ≠ s.heap_listp then
    putW C (pred + 4) (COMP_OFFSET s.heap_listp (bp + asize)) else C with hG
  set F := if succ ≠ s.heap_listp then
    putW G succ (COMP_OFFSET s.heap_listp (bp + asize)) else G with hF
  have hGC : ∀ p, bp - 4 ≤ p → p + 4 ≤ bp + csize → getW G p = getW C p := by
    intro p h1 h2
    rw [hG]
    rcases hplo with hp | ⟨h8p, hpl, hpW, hpd⟩
    · rw [if_neg (by simp [hp])]
    · rw [if_pos (by omega), getW_putW_of_disjoint _ _ _ _ (by omega)]
  have hFC : ∀ p, bp - 4 ≤ p → p + 4 ≤ bp + csize → getW F p = getW C p := by
    intro p h1 h2
    rw [hF]
    rcases hslo with hs | ⟨h8s, hsl, hsW, hsd⟩
    · rw [if_neg (by simp [hs])]
      exact hGC p h1 h2
    · rw [if_pos (by omega), getW_putW_of_disjoint _ _ _ _ (by omega)]
      exact hGC p h1 h2
  refine ⟨?_, ?_, ?_, ?_, ?_, ?_, ?_, ?_, trivial⟩
  · rw [hFC _ (Nat.le_refl _) (by omega), hC,
      getW_putW_of_disjoint _ _ _ _ (by omega),
      getW_putW_of_disjoint _ _ _ _ (by omega),
      getW_putW_of_disjoint _ _ _ _ (by omega),
      getW_putW_of_disjoint _ _ _ _ (by omega),
      getW_putW_of_disjoint _ _ _ _ (by omega)]
    exact getW_putW_pack _ _ _ _ h8a (by omega) (by simp only [W32] at hcW ⊢; omega)
  · rw [hFC _ (by omega) (by omega), hC,
      getW_putW_of_disjoint _ _ _ _ (by omega),
      getW_putW_of_disjoint _ _ _ _ (by omega),
      getW_putW_of_disjoint _ _ _ _ (by omega),
      getW_putW_of_disjoint _ _ _ _ (by omega)]
    exact getW_putW_pack _ _ _ _ h8a (by omega) (by simp only [W32] at hcW ⊢; omega)
  · rw [hFC _ (by omega) (by omega), hC,
      getW_putW_of_disjoint _ _ _ _ (by omega),
      getW_putW_of_disjoint _ _ _ _ (by omega),
      getW_putW_of_disjoint _ _ _ _ (by omega)]
    have := getW_putW_pack (putW (putW s.mem (bp - 4) (PACK asize 1))
      (bp + asize - 8) (PACK asize 1)) (bp + asize - 4) (csize - asize) 0
      (by omega) (by omega) (by simp only [W32] at hcW ⊢; omega)
    simpa using this
  · rw [hFC _ (by omega) (by omega), hC,
      getW_putW_of_disjoint _ _ _ _ (by omega),
      getW_putW_of_disjoint _ _ _ _ (by omega)]
    have := getW_putW_pack (putW (putW (putW s.mem (bp - 4) (PACK asize 1))
      (bp + asize - 8) (PACK asize 1)) (bp + asize - 4) (PACK (csize - asize) 0))
      (bp + csize - 8) (csize - asize) 0
      (by omega) (by omega) (by simp only [W32] at hcW ⊢; omega)
    simpa using this
  · rw [hFC _ (by omega) (by omega), hC,
      getW_putW_of_disjoint _ _ _ _ (by omega), getW_putW_self]
    exact comp_roundtrip _ _ hpb.1 hpb.2 hWW
  · rw [hFC _ (by omega) (by omega), hC, getW_putW_self]
    exact comp_roundtrip _ _ hsb.1 hsb.2 hWW
  · intro hpc
    rcases hplo with hp | ⟨h8p, hpl, hpW, hpd⟩
    · exact absurd hp hpc
    · have hred : getW F (pred + 4) =
          COMP_OFFSET s.heap_listp (bp + asize) % W32 := by
        rw [hF]
        rcases hslo with hs | ⟨h8s, hsl, hsW, hsd⟩
        · rw [if_neg (by simp [hs]), hG, if_pos hpc, getW_putW_self]
        · rw [if_pos (by omega), getW_putW_of_disjoint _ _ _ _ (by omega),
            hG, if_pos hpc, getW_putW_self]
      rw [hred]
      exact comp_roundtrip _ _ (by omega) (by omega) hWW
  · intro hsc
    have hred : getW F succ = COMP_OFFSET s.heap_listp (bp + asize) % W32 := by
      rw [hF, if_pos hsc, getW_putW_self]
    rw [hred]
    exact comp_roundtrip _ _ (by omega) (by omega) hWW

/-- The exact dataflow of place in the whole-block branch: header and footer
are rewritten with the allocated bit, and the block is unlinked from the free
list, sentinel-aware: when the predecessor is the sentinel the head is
updated (and the successor's predecessor pointed at the sentinel) instead of
writing into the sentinel's fields. -/
theorem place_whole_eq (s : MState) (bp asize csize pred succ : Nat)
    (hcs : GET_SIZE s.mem (HDRP bp) = csize)
    (hpred : GET_PRED s bp = pred) (hsucc : GET_SUCC s bp = succ)
    (h8c : csize % 8 = 0) (hbp8 : 8 ≤ bp) (hc8 : 8 ≤ csize) (hcW : csize < W32)
    (hac : asize ≤ csize) (hno : csize - asize < 24) :
    place s bp asize =
      (if pred = s.heap_listp then
        { s with
          mem :=
            (fun m => if succ ≠ s.heap_listp then
                putW m succ (COMP_OFFSET s.heap_listp s.heap_listp) else m)
            (putW (putW s.mem (bp - 4) (PACK csize 1)) (bp + csize - 8) (PACK csize 1)),
          first_free := succ }
      else if succ ≠ s.heap_listp then
        { s with
          mem :=
            putW (putW (putW (putW s.mem (bp - 4) (PACK csize 1)) (bp + csize - 8)
              (PACK csize 1)) (pred + 4) (COMP_OFFSET s.heap_listp succ)) succ
              (COMP_OFFSET s.heap_listp pred) }
      else
        { s with
          mem :=
            putW (putW (putW s.mem (bp - 4) (PACK csize 1)) (bp + csize - 8)
              (PACK csize 1)) (pred + 4) (COMP_OFFSET s.heap_listp succ) }) := by
  have hcn : csize < 4294967296 := by simpa [W32] using hcW
  have hW64c : csize < W64 := by simp only [W64]; omega
  have hcs2 : GET_SIZE s.mem (bp - 4) = csize := by simpa [HDRP] using hcs
  have hg1 : getW (putW s.mem (bp - 4) (PACK csize 1)) (bp - 4) = csize + 1 :=
    getW_putW_pack _ _ _ _ h8c (by omega) (by simp only [W32]; omega)
  have g1 : GET_SIZE (putW s.mem (bp - 4) (PACK csize 1)) (bp - 4) = csize :=
    GET_SIZE_of_getW _ _ _ 1 hg1 h8c (by omega)
  simp only [place, HDRP, FTRP, NEXT_BLKP, SET_PRED, SET_SUCC, hcs2, hpred, hsucc]
  rw [usub64_of_le csize asize hac hW64c, if_neg (by omega)]
  rw [g1]
  split
  · split <;> simp
  · split <;> rfl

/-- Postconditions of place in the whole-block branch: the entire block is
marked allocated (header and footer hold csize with the allocated bit) and
removed from the free list using its predecessor and successor; when the
predecessor is the sentinel, the head is updated to the successor (whose
predecessor link is then pointed at the sentinel) and neither word of the
sentinel is written; otherwise the neighbors are linked to each other and
the head is unchanged. -/
theorem place_whole_spec (s : MState) (bp asize csize pred succ : Nat)
    (hcs : GET_SIZE s.mem (HDRP bp) = csize)
    (hpred : GET_PRED s bp = pred) (hsucc : GET_SUCC s bp = succ)
    (h8bp : bp % 8 = 0) (h8c : csize % 8 = 0)
    (hc24 : 24 ≤ csize) (hac : asize ≤ csize) (hcW : csize < W32)
    (hhl8 : s.heap_listp % 8 = 0) (hhlo : 8 ≤ s.heap_listp)
    (hhlbp : s.heap_listp + 8 ≤ bp) (hbW : bp + csize < s.heap_listp + W32)
    (hWW : s.heap_listp + W32 ≤ W64)
    (hplo : pred = s.heap_listp ∨ (pred % 8 = 0 ∧ s.heap_listp + 8 ≤ pred ∧
      pred < s.heap_listp + W32 ∧ (pred + 24 ≤ bp ∨ bp + csize ≤ pred)))
    (hslo : succ = s.heap_listp ∨ (succ % 8 = 0 ∧ s.heap_listp + 8 ≤ succ ∧
      succ < s.heap_listp + W32 ∧ (succ + 24 ≤ bp ∨ bp + csize ≤ succ)))
    (hno : csize - asize < 24) :
    getW (place s bp asize).mem (HDRP bp) = csize + 1 ∧
    getW (place s bp asize).mem (bp + csize - 8) = csize + 1 ∧
    (pred = s.heap_listp →
      (place s bp asize).first_free = succ ∧
      (succ ≠ s.heap_listp → GET_PRED (place s bp asize) succ = s.heap_listp) ∧
      getW (place s bp asize).mem s.heap_listp = getW s.mem s.heap_listp ∧
      (s.heap_listp + 8 < bp →
        getW (place s bp asize).mem (s.heap_listp + 4) =
          getW s.mem (s.heap_listp + 4))) ∧
    (pred ≠ s.heap_listp →
      GET_SUCC (place s bp asize) pred = succ ∧
      (place s bp asize).first_free = s.first_free ∧
      (succ ≠ s.heap_listp → GET_PRED (place s bp asize) succ = pred)) := by
  have hW32pos : 0 < W32 := by simp only [W32]; omega
  have hpb : s.heap_listp ≤ pred ∧ pred < s.heap_listp + W32 := by
    rcases hplo with rfl | ⟨_, h1, h2, _⟩
    · exact ⟨Nat.le_refl _, by omega⟩
    · exact ⟨by omega, h2⟩
  have hsb : s.heap_listp ≤ succ ∧ succ < s.heap_listp + W32 := by
    rcases hslo with rfl | ⟨_, h1, h2, _⟩
    · exact ⟨Nat.le_refl _, by omega⟩
    · exact ⟨by omega, h2⟩
  rw [place_whole_eq s bp asize csize pred succ hcs hpred hsucc h8c (by omega)
    (by omega) hcW hac hno]
  simp only [HDRP, GET_PRED, GET_SUCC]
  by_cases hpc : pred = s.heap_listp
  · rw [if_pos hpc]
    dsimp only
    refine ⟨?_, ?_, fun _ => ⟨rfl, ?_, ?_, ?_⟩, fun hne => absurd hpc hne⟩
    · rcases hslo with hs | ⟨h8s, hsl, hsW, hsd⟩
      · rw [if_neg (by simp [hs])]
        rw [getW_putW_of_disjoint _ _ _ _ (by omega)]
        exact getW_putW_pack _ _ _ _ h8c (by omega) (by simp only [W32] at hcW ⊢; omega)
      · rw [if_pos (by omega), getW_putW_of_disjoint _ _ _ _ (by omega),
          getW_putW_of_disjoint _ _ _ _ (by omega)]
        exact getW_putW_pack _ _ _ _ h8c (by omega) (by simp only [W32] at hcW ⊢; omega)
    · rcases hslo with hs | ⟨h8s, hsl, hsW, hsd⟩
      · rw [if_neg (by simp [hs])]
        have := getW_putW_pack (putW s.mem (bp - 4) (PACK csize 1)) (bp + csize - 8)
          csize 1 h8c (by omega) (by simp only [W32] at hcW ⊢; omega)
        exact this
      · rw [if_pos (by omega), getW_putW_of_disjoint _ _ _ _ (by omega)]
        exact getW_putW_pack _ _ _ _ h8c (by omega) (by simp only [W32] at hcW ⊢; omega)
    · intro hsc
      rcases hslo with hs | ⟨h8s, hsl, hsW, hsd⟩
      · exact absurd hs hsc
      · rw [if_pos (by omega), getW_putW_self]
        exact comp_roundtrip _ _ (Nat.le_refl _) (by omega) hWW
    · rcases hslo with hs | ⟨h8s, hsl, hsW, hsd⟩
      · rw [if_neg (by simp [hs])]
        rw [getW_putW_of_disjoint _ _ _ _ (by omega),
          getW_putW_of_disjoint _ _ _ _ (by omega)]
      · rw [if_pos (by omega), getW_putW_of_disjoint _ _ _ _ (by omega),
          getW_putW_of_disjoint _ _ _ _ (by omega),
          getW_putW_of_disjoint _ _ _ _ (by omega)]
    · intro hbig
      rcases hslo with hs | ⟨h8s, hsl, hsW, hsd⟩
      · rw [if_neg (by simp [hs])]
        rw [getW_putW_of_disjoint _ _ _ _ (by omega),
          getW_putW_of_disjoint _ _ _ _ (by omega)]
      · rw [if_pos (by omega), getW_putW_of_disjoint _ _ _ _ (by omega),
          getW_putW_of_disjoint _ _ _ _ (by omega),
          getW_putW_of_disjoint _ _ _ _ (by omega)]
  · rw [if_neg hpc]
    obtain ⟨h8p, hpl, hpW, hpd⟩ := hplo.resolve_left hpc
    by_cases hsc : succ = s.heap_listp
    · rw [if_neg (by simp [hsc])]
      dsimp only
      refine ⟨?_, ?_, fun h => absurd h hpc, fun _ => ⟨?_, rfl, fun h => absurd hsc h⟩⟩
      · rw [getW_putW_of_disjoint _ _ _ _ (by omega),
          getW_putW_of_disjoint _ _ _ _ (by omega)]
        exact getW_putW_pack _ _ _ _ h8c (by omega) (by simp only [W32] at hcW ⊢; omega)
      · rw [getW_putW_of_disjoint _ _ _ _ (by omega)]
        exact getW_putW_pack _ _ _ _ h8c (by omega) (by simp only [W32] at hcW ⊢; omega)
      · rw [getW_putW_self]
        exact comp_roundtrip _ _ hsb.1 hsb.2 hWW
    · rw [if_pos hsc]
      obtain ⟨h8s, hsl, hsW, hsd⟩ := hslo.resolve_left hsc
      dsimp only
      refine ⟨?_, ?_, fun h => absurd h hpc, fun _ => ⟨?_, rfl, fun _ => ?_⟩⟩
      · rw [getW_putW_of_disjoint _ _ _ _ (by omega),
          getW_putW_of_disjoint _ _ _ _ (by omega),
          getW_putW_of_disjoint _ _ _ _ (by omega)]
        exact getW_putW_pack _ _ _ _ h8c (by omega) (by simp only [W32] at hcW ⊢; omega)
      · rw [getW_putW_of_disjoint _ _ _ _ (by omega),
          getW_putW_of_disjoint _ _ _ _ (by omega)]
        exact getW_putW_pack _ _ _ _ h8c (by omega) (by simp only [W32] at hcW ⊢; omega)
      · rw [getW_putW_of_disjoint _ _ _ _ (by omega), getW_putW_self]
        exact comp_roundtrip _ _ hsb.1 hsb.2 hWW
      · rw [getW_putW_self]
        exact comp_roundtrip _ _ hpb.1 hpb.2 hWW

/-- C7: place(block, asize) on a free block of size csize at least asize
splits exactly when csize - asize is at least 24: in that case the low asize
bytes become an allocated block with header and footer written, and the
remaining high bytes become a new free block at bp + asize that inherits the
original block's predecessor and successor links in place, occupying the
original block's list position (neighbors relinked sentinel-aware, head
updated exactly if the original was the head); otherwise the whole block is
allocated and removed from the free list, updating the head — and leaving
both sentinel words unwritten — when the predecessor is the sentinel. -/
theorem C7_place_policy (s : MState) (bp asize csize pred succ : Nat)
    (hcs : GET_SIZE s.mem (HDRP bp) = csize)
    (hpred : GET_PRED s bp = pred) (hsucc : GET_SUCC s bp = succ)
    (h8bp : bp % 8 = 0) (h8c : csize % 8 = 0) (h8a : asize % 8 = 0)
    (ha24 : 24 ≤ asize) (hac : asize ≤ csize) (hcW : csize < W32)
    (hhl8 : s.heap_listp % 8 = 0) (hhlo : 8 ≤ s.heap_listp)
    (hhlbp : s.heap_listp + 8 ≤ bp) (hbW : bp + csize < s.heap_listp + W32)
    (hWW : s.heap_listp + W32 ≤ W64)
    (hplo : pred = s.heap_listp ∨ (pred % 8 = 0 ∧ s.heap_listp + 8 ≤ pred ∧
      pred < s.heap_listp + W32 ∧ (pred + 24 ≤ bp ∨ bp + csize ≤ pred)))
    (hslo : succ = s.heap_listp ∨ (succ % 8 = 0 ∧ s.heap_listp + 8 ≤ succ ∧
      succ < s.heap_listp + W32 ∧ (succ + 24 ≤ bp ∨ bp + csize ≤ succ))) :
    (24 ≤ csize - asize →
      getW (place s bp asize).mem (HDRP bp) = asize + 1 ∧
      getW (place s bp asize).mem (bp + asize - 8) = asize + 1 ∧
      getW (place s bp asize).mem (HDRP (bp + asize)) = csize - asize ∧
      getW (place s bp asize).mem (bp + csize - 8) = csize - asize ∧
      GET_PRED (place s bp asize) (bp + asize) = pred ∧
      GET_SUCC (place s bp asize) (bp + asize) = succ ∧
      (pred ≠ s.heap_listp → GET_SUCC (place s bp asize) pred = bp + asize) ∧
      (succ ≠ s.heap_listp → GET_PRED (place s bp asize) succ = bp + asize) ∧
      (place s bp asize).first_free =
        (if bp = s.first_free then bp + asize else s.first_free)) ∧
    (csize - asize < 24 →
      getW (place s bp asize).mem (HDRP bp) = csize + 1 ∧
      getW (place s bp asize).mem (bp + csize - 8) = csize + 1 ∧
      (pred = s.heap_listp →
        (place s bp asize).first_free = succ ∧
        (succ ≠ s.heap_listp → GET_PRED (place s bp asize) succ = s.heap_listp) ∧
        getW (place s bp asize).mem s.heap_listp = getW s.mem s.heap_listp ∧
        (s.heap_listp + 8 < bp →
          getW (place s bp asize).mem (s.heap_listp + 4) =
            getW s.mem (s.heap_listp + 4))) ∧
      (pred ≠ s.heap_listp →
        GET_SUCC (place s bp asize) pred = succ ∧
        (place s bp asize).first_free = s.first_free ∧
        (succ ≠ s.heap_listp → GET_PRED (place s bp asize) succ = pred))) := by
  constructor
  · intro hsplit
    exact place_split_spec s bp asize csize pred succ hcs hpred hsucc h8bp h8c h8a
      ha24 hac hcW hhl8 hhlo hhlbp hbW hWW hplo hslo hsplit
  · intro hno
    exact place_whole_spec s bp asize csize pred succ hcs hpred hsucc h8bp h8c
      (by omega) hac hcW hhl8 hhlo hhlbp hbW hWW hplo hslo hno

theorem C7_place_policy_witness :
    GET_SIZE heap0.mem (HDRP 1016) = 512 ∧
    GET_PRED heap0 1016 = 1008 ∧
    GET_SUCC heap0 1016 = 1008 ∧
    (1016 : Nat) % 8 = 0 ∧
    (512 : Nat) % 8 = 0 ∧
    (24 : Nat) % 8 = 0 ∧
    (24 : Nat) ≤ 24 ∧
    (24 : Nat) ≤ 512 ∧
    (512 : Nat) < W32 ∧
    heap0.heap_listp % 8 = 0 ∧
    8 ≤ heap0.heap_listp ∧
    heap0.heap_listp + 8 ≤ 1016 ∧
    1016 + 512 < heap0.heap_listp + W32 ∧
    heap0.heap_listp + W32 ≤ W64 ∧
    (1008 = heap0.heap_listp ∨ ((1008 : Nat) % 8 = 0 ∧ heap0.heap_listp + 8 ≤ 1008 ∧
      1008 < heap0.heap_listp + W32 ∧ (1008 + 24 ≤ 1016 ∨ 1016 + 512 ≤ 1008))) ∧
    (1008 = heap0.heap_listp ∨ ((1008 : Nat) % 8 = 0 ∧ heap0.heap_listp + 8 ≤ 1008 ∧
      1008 < heap0.heap_listp + W32 ∧ (1008 + 24 ≤ 1016 ∨ 1016 + 512 ≤ 1008))) ∧
    ((24 ≤ 512 - 24 →
      getW (place heap0 1016 24).mem (HDRP 1016) = 24 + 1 ∧
      getW (place heap0 1016 24).mem (1016 + 24 - 8) = 24 + 1 ∧
      getW (place heap0 1016 24).mem (HDRP (1016 + 24)) = 512 - 24 ∧
      getW (place heap0 1016 24).mem (1016 + 512 - 8) = 512 - 24 ∧
      GET_PRED (place heap0 1016 24) (1016 + 24) = 1008 ∧
      GET_SUCC (place heap0 1016 24) (1016 + 24) = 1008 ∧
      (1008 ≠ heap0.heap_listp → GET_SUCC (place heap0 1016 24) 1008 = 1016 + 24) ∧
      (1008 ≠ heap0.heap_listp → GET_PRED (place heap0 1016 24) 1008 = 1016 + 24) ∧
      (place heap0 1016 24).first_free =
        (if 1016 = heap0.first_free then 1016 + 24 else heap0.first_free)) ∧
    (512 - 24 < 24 →
      getW (place heap0 1016 24).mem (HDRP 1016) = 512 + 1 ∧
      getW (place heap0 1016 24).mem (1016 + 512 - 8) = 512 + 1 ∧
      (1008 = heap0.heap_listp →
        (place heap0 1016 24).first_free = 1008 ∧
        (1008 ≠ heap0.heap_listp →
          GET_PRED (place heap0 1016 24) 1008 = heap0.heap_listp) ∧
        getW (place heap0 1016 24).mem heap0.heap_listp =
          getW heap0.mem heap0.heap_listp ∧
        (heap0.heap_listp + 8 < 1016 →
          getW (place heap0 1016 24).mem (heap0.heap_listp + 4) =
            getW heap0.mem (heap0.heap_listp + 4))) ∧
      (1008 ≠ heap0.heap_listp →
        GET_SUCC (place heap0 1016 24) 1008 = 1008 ∧
        (place heap0 1016 24).first_free = heap0.first_free ∧
        (1008 ≠ heap0.heap_listp → GET_PRED (place heap0 1016 24) 1008 = 1008)))) :=
  by
  have hh : GET_SIZE heap0.mem (HDRP 1016) = 512 ∧ GET_PRED heap0 1016 = 1008 ∧
      GET_SUCC heap0 1016 = 1008 ∧ (1016 : Nat) % 8 = 0 ∧ (512 : Nat) % 8 = 0 ∧
      (24 : Nat) % 8 = 0 ∧ (24 : Nat) ≤ 24 ∧ (24 : Nat) ≤ 512 ∧ (512 : Nat) < W32 ∧
      heap0.heap_listp % 8 = 0 ∧ 8 ≤ heap0.heap_listp ∧ heap0.heap_listp + 8 ≤ 1016 ∧
      1016 + 512 < heap0.heap_listp + W32 ∧ heap0.heap_listp + W32 ≤ W64 ∧
      (1008 = heap0.heap_listp ∨ ((1008 : Nat) % 8 = 0 ∧ heap0.heap_listp + 8 ≤ 1008 ∧
        1008 < heap0.heap_listp + W32 ∧ (1008 + 24 ≤ 1016 ∨ 1016 + 512 ≤ 1008))) ∧
      (1008 = heap0.heap_listp ∨ ((1008 : Nat) % 8 = 0 ∧ heap0.heap_listp + 8 ≤ 1008 ∧
        1008 < heap0.heap_listp + W32 ∧ (1008 + 24 ≤ 1016 ∨ 1016 + 512 ≤ 1008))) := by
    decide
  obtain ⟨g1, g2, g3, g4, g5, g6, g7, g8, g9, g10, g11, g12, g13, g14, g15, g16⟩ := hh
  refine ⟨g1, g2, g3, g4, g5, g6, g7, g8, g9, g10, g11, g12, g13, g14, g15, g16, ?_⟩
  exact C7_place_policy heap0 1016 24 512 1008 1008 g1 g2 g3 g4 g5 g6 g7 g8 g9
    g10 g11 g12 g13 g14 g15 g16

/-! ## Tiling lemmas -/

theorem BlocksOk_cons_iff (m : Mem) (a e b sz : Nat) (al : Bool)
    (rest : List (Nat × Nat × Bool)) :
    BlocksOk m a ((b, sz, al) :: rest) e = true ↔
      b = a ∧ sz % 8 = 0 ∧ 24 ≤ sz ∧
      getW m (a - 4) = sz + (if al then 1 else 0) ∧
      getW m (a + sz - 8) = sz + (if al then 1 else 0) ∧
      BlocksOk m (a + sz) rest e = true := by
  simp [BlocksOk, Bool.and_eq_true, and_assoc]

theorem BlocksOk_nil_iff (m : Mem) (a e : Nat) :
    BlocksOk m a [] e = true ↔ a = e := by
  simp [BlocksOk]

theorem blocks_le (m : Mem) :
    ∀ (bl : List (Nat × Nat × Bool)) (a e : Nat), BlocksOk m a bl e = true → a ≤ e := by
  intro bl
  induction bl with
  | nil => intro a e h; rw [BlocksOk_nil_iff] at h; omega
  | cons hd rest ih =>
    intro a e h
    obtain ⟨b, sz, al⟩ := hd
    rw [BlocksOk_cons_iff] at h
    have := ih (a + sz) e h.2.2.2.2.2
    omega

theorem blocks_facts (m : Mem) :
    ∀ (bl : List (Nat × Nat × Bool)) (a e : Nat),
      BlocksOk m a bl e = true → ∀ x ∈ bl,
      a ≤ x.1 ∧ x.1 + x.2.1 ≤ e ∧ x.2.1 % 8 = 0 ∧ 24 ≤ x.2.1 ∧ x.1 % 8 = a % 8 ∧
      getW m (x.1 - 4) = x.2.1 + (if x.2.2 then 1 else 0) ∧
      getW m (x.1 + x.2.1 - 8) = x.2.1 + (if x.2.2 then 1 else 0) := by
  intro bl
  induction bl with
  | nil => intro a e _ x hm; cases hm
  | cons hd rest ih =>
    intro a e h x hm
    obtain ⟨b0, sz0, al0⟩ := hd
    rw [BlocksOk_cons_iff] at h
    obtain ⟨hba, h8, h24, hh, hf, hrest⟩ := h
    subst hba
    rcases List.mem_cons.mp hm with he | hm2
    · subst he
      dsimp only
      have := blocks_le m rest (b0 + sz0) e hrest
      exact ⟨Nat.le_refl _, by omega, h8, h24, rfl, hh, hf⟩
    · have := ih (b0 + sz0) e hrest x hm2
      refine ⟨by omega, this.2.1, this.2.2.1, this.2.2.2.1, by omega,
        this.2.2.2.2.2⟩

/-- Two distinct blocks of a tiling occupy disjoint ranges. -/
theorem blocks_disjoint (m : Mem) :
    ∀ (bl : List (Nat × Nat × Bool)) (a e : Nat), BlocksOk m a bl e = true →
      ∀ x ∈ bl, ∀ y ∈ bl, x.1 ≠ y.1 →
      x.1 + x.2.1 ≤ y.1 ∨ y.1 + y.2.1 ≤ x.1 := by
  intro bl
  induction bl with
  | nil => intro a e _ x hx; cases hx
  | cons hd rest ih =>
    intro a e h x hx y hy hne
    obtain ⟨b0, sz0, al0⟩ := hd
    rw [BlocksOk_cons_iff] at h
    obtain ⟨hba, h8, h24, hh, hf, hrest⟩ := h
    subst hba
    rcases List.mem_cons.mp hx with hex | hx2 <;>
      rcases List.mem_cons.mp hy with hey | hy2
    · subst hex; subst hey; exact absurd rfl hne
    · subst hex
      dsimp only
      have := blocks_facts m rest (b0 + sz0) e hrest y hy2
      left; omega
    · subst hey
      dsimp only
      have := blocks_facts m rest (b0 + sz0) e hrest x hx2
      right; omega
    · exact ih (b0 + sz0) e hrest x hx2 y hy2 hne

/-- Writing a word that avoids every header and footer word of a tiling
leaves the tiling intact. -/
theorem BlocksOk_frame (m : Mem) (p v : Nat) :
    ∀ (bl : List (Nat × Nat × Bool)) (a e : Nat),
      BlocksOk m a bl e = true → 8 ≤ a →
      (∀ x ∈ bl,
        (p + 4 ≤ x.1 - 4 ∨ x.1 ≤ p) ∧
        (p + 4 ≤ x.1 + x.2.1 - 8 ∨ x.1 + x.2.1 - 4 ≤ p)) →
      BlocksOk (putW m p v) a bl e = true := by
  intro bl
  induction bl with
  | nil => intro a e h _ _; rwa [BlocksOk_nil_iff] at h ⊢
  | cons hd rest ih =>
    intro a e h ha hdj
    obtain ⟨b0, sz0, al0⟩ := hd
    rw [BlocksOk_cons_iff] at h ⊢
    obtain ⟨hba, h8, h24, hh, hf, hrest⟩ := h
    obtain ⟨hdh, hdf⟩ := hdj (b0, sz0, al0) (List.mem_cons_self _ _)
    dsimp only at hdh hdf
    subst hba
    refine ⟨rfl, h8, h24, ?_, ?_, ih (b0 + sz0) e hrest (by omega) ?_⟩
    · rcases hdh with h | h
      · rw [getW_putW_of_disjoint _ _ _ _ (Or.inr h)]
        exact hh
      · rw [getW_putW_of_disjoint _ _ _ _ (Or.inl (by omega))]
        exact hh
    · rcases hdf with h | h
      · rw [getW_putW_of_disjoint _ _ _ _ (Or.inr h)]
        exact hf
      · rw [getW_putW_of_disjoint _ _ _ _ (Or.inl (by omega))]
        exact hf
    · intro x hm
      exact hdj x (List.mem_cons_of_mem _ hm)

/-! ## Free-chain lemmas -/

theorem FreeChainOk_nil_iff (s : MState) (prev bp : Nat) :
    FreeChainOk s prev bp [] = true ↔ bp = s.heap_listp := by
  simp [FreeChainOk]

theorem FreeChainOk_cons_iff (s : MState) (prev bp x : Nat) (L : List Nat) :
    FreeChainOk s prev bp (x :: L) = true ↔
      bp = x ∧ bp ≠ s.heap_listp ∧ GET_PRED s bp = prev ∧
      FreeChainOk s bp (GET_SUCC s bp) L = true := by
  simp [FreeChainOk, Bool.and_eq_true, and_assoc]

theorem GET_PRED_putW (s : MState) (p v x : Nat) (h : p + 4 ≤ x ∨ x + 4 ≤ p) :
    GET_PRED { s with mem := putW s.mem p v } x = GET_PRED s x := by
  simp only [GET_PRED]
  rw [getW_putW_of_disjoint _ _ _ _ (by omega)]

theorem GET_SUCC_putW (s : MState) (p v x : Nat) (h : p + 4 ≤ x + 4 ∨ x + 8 ≤ p) :
    GET_SUCC { s with mem := putW s.mem p v } x = GET_SUCC s x := by
  simp only [GET_SUCC]
  rw [getW_putW_of_disjoint _ _ _ _ (by omega)]

theorem FreeChainOk_congr (s s2 : MState) (hhl : s2.heap_listp = s.heap_listp) :
    ∀ (L : List Nat) (prev bp : Nat),
      (∀ x ∈ L, GET_PRED s2 x = GET_PRED s x ∧ GET_SUCC s2 x = GET_SUCC s x) →
      FreeChainOk s prev bp L = true → FreeChainOk s2 prev bp L = true := by
  intro L
  induction L with
  | nil =>
    intro prev bp _ h
    rw [FreeChainOk_nil_iff] at h ⊢
    rw [hhl, h]
  | cons x R ih =>
    intro prev bp hlk h
    rw [FreeChainOk_cons_iff] at h ⊢
    obtain ⟨hbx, hbs, hpd, hrest⟩ := h
    subst hbx
    obtain ⟨hp, hsu⟩ := hlk bp (List.mem_cons_self _ _)
    refine ⟨rfl, by rw [hhl]; exact hbs, by rw [hp, hpd], ?_⟩
    rw [hsu]
    exact ih bp (GET_SUCC s bp) (fun y hy => hlk y (List.mem_cons_of_mem _ hy)) hrest

theorem FreeChainOk_frame (s : MState) (p v : Nat) (L : List Nat) (prev bp : Nat)
    (h : FreeChainOk s prev bp L = true)
    (hd : ∀ x ∈ L, p + 4 ≤ x ∨ x + 8 ≤ p) :
    FreeChainOk { s with mem := putW s.mem p v } prev bp L = true := by
  refine FreeChainOk_congr s { s with mem := putW s.mem p v } rfl L prev bp
    (fun x hx => ?_) h
  have := hd x hx
  exact ⟨GET_PRED_putW s p v x (by omega), GET_SUCC_putW s p v x (by omega)⟩

theorem FreeChainOk_append (s : MState) :
    ∀ (A : List Nat) (prev bp : Nat) (C : List Nat),
      FreeChainOk s prev bp (A ++ C) = true →
      ∃ prev2 bp2, FreeChainOk s prev2 bp2 C = true := by
  intro A
  induction A with
  | nil => intro prev bp C h; exact ⟨prev, bp, h⟩
  | cons x R ih =>
    intro prev bp C h
    rw [List.cons_append, FreeChainOk_cons_iff] at h
    exact ih bp (GET_SUCC s bp) C h.2.2.2

theorem FreeChainOk_unique (s : MState) :
    ∀ (L1 L2 : List Nat) (prev1 prev2 bp : Nat),
      FreeChainOk s prev1 bp L1 = true → FreeChainOk s prev2 bp L2 = true →
      L1 = L2 := by
  intro L1
  induction L1 with
  | nil =>
    intro L2 prev1 prev2 bp h1 h2
    rw [FreeChainOk_nil_iff] at h1
    cases L2 with
    | nil => rfl
    | cons y R =>
      rw [FreeChainOk_cons_iff] at h2
      exact absurd h1 h2.2.1
  | cons x R ih =>
    intro L2 prev1 prev2 bp h1 h2
    rw [FreeChainOk_cons_iff] at h1
    cases L2 with
    | nil =>
      rw [FreeChainOk_nil_iff] at h2
      exact absurd h2 h1.2.1
    | cons y Q =>
      rw [FreeChainOk_cons_iff] at h2
      have hRQ := ih Q bp bp (GET_SUCC s bp) h1.2.2.2 h2.2.2.2
      rw [← h1.1, ← h2.1, hRQ]

theorem FreeChainOk_nodup (s : MState) :
    ∀ (L : List Nat) (prev bp : Nat), FreeChainOk s prev bp L = true → L.Nodup := by
  intro L
  induction L with
  | nil => intro _ _ _; exact List.nodup_nil
  | cons x R ih =>
    intro prev bp h
    rw [FreeChainOk_cons_iff] at h
    obtain ⟨hbx, hbs, hpd, hrest⟩ := h
    subst hbx
    refine List.Nodup.cons (fun hmem => ?_) (ih bp (GET_SUCC s bp) hrest)
    obtain ⟨A, B, hAB⟩ := List.append_of_mem hmem
    rw [hAB] at hrest
    obtain ⟨p2, b2, hc⟩ := FreeChainOk_append s A bp (GET_SUCC s bp) (bp :: B) hrest
    rw [FreeChainOk_cons_iff] at hc
    have hBeq := FreeChainOk_unique s (A ++ bp :: B) B bp bp (GET_SUCC s bp)
      hrest (hc.1 ▸ hc.2.2.2)
    have : (A ++ bp :: B).length = B.length := by rw [hBeq]
    simp at this
    omega

/-! ## freelist_add -/

theorem freelist_add_eq (s : MState) (bp : Nat) :
    freelist_add s bp =
      { s with
        mem :=
          (fun m => if s.first_free ≠ s.heap_listp then
              putW m s.first_free (COMP_OFFSET s.heap_listp bp) else m)
          (putW (putW s.mem bp (COMP_OFFSET s.heap_listp s.heap_listp)) (bp + 4)
            (COMP_OFFSET s.heap_listp s.first_free)),
        first_free := bp } := by
  unfold freelist_add SET_PRED SET_SUCC
  dsimp only
  split <;> rfl

/-- freelist_add pushes bp onto the head of the free chain. -/
theorem freelist_add_chain (s : MState) (bp : Nat) (fl : List Nat)
    (hch : FreeChainOk s s.heap_listp s.first_free fl = true)
    (hnm : bp ∉ fl) (hbp : bp ≠ s.heap_listp) (h8bp : bp % 8 = 0)
    (hbb : s.heap_listp ≤ bp ∧ bp < s.heap_listp + W32)
    (hWW : s.heap_listp + W32 ≤ W64) (hhl8 : s.heap_listp % 8 = 0)
    (hbl : ∀ x ∈ fl, x % 8 = 0 ∧ s.heap_listp ≤ x ∧ x < s.heap_listp + W32) :
    FreeChainOk (freelist_add s bp) s.heap_listp bp (bp :: fl) = true := by
  have hW32pos : 0 < W32 := by simp only [W32]; omega
  have hnd := FreeChainOk_nodup s fl s.heap_listp s.first_free hch
  rw [freelist_add_eq]
  dsimp only
  cases fl with
  | nil =>
    rw [FreeChainOk_nil_iff] at hch
    rw [if_neg (by simp [hch])]
    rw [FreeChainOk_cons_iff]
    simp only [GET_PRED, GET_SUCC]
    rw [getW_putW_of_disjoint _ _ _ _ (by omega), getW_putW_self, getW_putW_self]
    refine ⟨trivial, hbp, ?_, ?_⟩
    · exact comp_roundtrip _ _ (Nat.le_refl _) (by omega) hWW
    · rw [FreeChainOk_nil_iff, hch]
      exact comp_roundtrip _ _ (Nat.le_refl _) (by omega) hWW
  | cons h rest =>
    have hch2 := hch
    rw [FreeChainOk_cons_iff] at hch2
    obtain ⟨hfh, hfs, hfp, hfrest⟩ := hch2
    subst hfh
    obtain ⟨h8ff, hlff, hffW⟩ := hbl s.first_free (List.mem_cons_self _ _)
    have hffbp : s.first_free ≠ bp :=
      fun he => hnm (he ▸ List.mem_cons_self _ _)
    rw [if_pos hfs]
    set M := putW (putW (putW s.mem bp (COMP_OFFSET s.heap_listp s.heap_listp))
      (bp + 4) (COMP_OFFSET s.heap_listp s.first_free)) s.first_free
      (COMP_OFFSET s.heap_listp bp) with hM
    have hgp : getW M bp = COMP_OFFSET s.heap_listp s.heap_listp % W32 := by
      rw [hM, getW_putW_of_disjoint _ _ _ _ (by omega),
        getW_putW_of_disjoint _ _ _ _ (by omega), getW_putW_self]
    have hgs : getW M (bp + 4) = COMP_OFFSET s.heap_listp s.first_free % W32 := by
      rw [hM, getW_putW_of_disjoint _ _ _ _ (by omega), getW_putW_self]
    have hgh : getW M s.first_free = COMP_OFFSET s.heap_listp bp % W32 := by
      rw [hM, getW_putW_self]
    have hghs : getW M (s.first_free + 4) = getW s.mem (s.first_free + 4) := by
      rw [hM, getW_putW_of_disjoint _ _ _ _ (by omega),
        getW_putW_of_disjoint _ _ _ _ (by omega),
        getW_putW_of_disjoint _ _ _ _ (by omega)]
    rw [FreeChainOk_cons_iff]
    refine ⟨rfl, hbp, ?_, ?_⟩
    · simp only [GET_PRED]
      rw [hgp]
      exact comp_roundtrip _ _ (Nat.le_refl _) (by omega) hWW
    · have hsucc1 : GET_SUCC { s with mem := M, first_free := bp } bp =
          s.first_free := by
        simp only [GET_SUCC]
        rw [hgs]
        exact comp_roundtrip _ _ hlff hffW hWW
      rw [hsucc1]
      rw [FreeChainOk_cons_iff]
      have hndr : s.first_free ∉ rest := (List.nodup_cons.mp hnd).1
      refine ⟨rfl, hfs, ?_, ?_⟩
      · simp only [GET_PRED]
        rw [hgh]
        exact comp_roundtrip _ _ hbb.1 hbb.2 hWW
      · have hsucc2 : GET_SUCC { s with mem := M, first_free := bp } s.first_free =
            GET_SUCC s s.first_free := by
          simp only [GET_SUCC]
          rw [hghs]
        rw [hsucc2]
        refine FreeChainOk_congr s { s with mem := M, first_free := bp } rfl rest
          s.first_free (GET_SUCC s s.first_free) (fun x hx => ?_) hfrest
        obtain ⟨h8x, hlx, hxW⟩ := hbl x (List.mem_cons_of_mem _ hx)
        have hxbp : x ≠ bp := fun he => hnm (he ▸ List.mem_cons_of_mem _ hx)
        have hxff : x ≠ s.first_free := fun he => hndr (he ▸ hx)
        refine ⟨?_, ?_⟩
        · simp only [GET_PRED]
          rw [hM, getW_putW_of_disjoint _ _ _ _ (by omega),
            getW_putW_of_disjoint _ _ _ _ (by omega),
            getW_putW_of_disjoint _ _ _ _ (by omega)]
        · simp only [GET_SUCC]
          rw [hM, getW_putW_of_disjoint _ _ _ _ (by omega),
            getW_putW_of_disjoint _ _ _ _ (by omega),
            getW_putW_of_disjoint _ _ _ _ (by omega)]

/-! ## Bookkeeping lemmas: chain segments, free addresses, adjacency -/

theorem ChainSeg_nil_iff (s : MState) (prev bp p2 b2 : Nat) :
    ChainSeg s prev bp [] p2 b2 = true ↔ prev = p2 ∧ bp = b2 := by
  simp [ChainSeg]

theorem ChainSeg_cons_iff (s : MState) (prev bp x p2 b2 : Nat) (L : List Nat) :
    ChainSeg s prev bp (x :: L) p2 b2 = true ↔
      bp = x ∧ bp ≠ s.heap_listp ∧ GET_PRED s bp = prev ∧
      ChainSeg s bp (GET_SUCC s bp) L p2 b2 = true := by
  simp [ChainSeg, Bool.and_eq_true, and_assoc]

theorem chain_append_iff (s : MState) :
    ∀ (Z : List Nat) (prev bp : Nat) (C : List Nat),
      FreeChainOk s prev bp (Z ++ C) = true ↔
      ∃ p2 b2, ChainSeg s prev bp Z p2 b2 = true ∧
        FreeChainOk s p2 b2 C = true := by
  intro Z
  induction Z with
  | nil =>
    intro prev bp C
    constructor
    · intro h
      exact ⟨prev, bp, by simp [ChainSeg], h⟩
    · rintro ⟨p2, b2, hseg, hc⟩
      rw [ChainSeg_nil_iff] at hseg
      rw [List.nil_append, hseg.1, hseg.2]
      exact hc
  | cons x R ih =>
    intro prev bp C
    rw [List.cons_append, FreeChainOk_cons_iff]
    constructor
    · rintro ⟨h1, h2, h3, h4⟩
      obtain ⟨p2, b2, hseg, hc⟩ := (ih bp (GET_SUCC s bp) C).mp h4
      exact ⟨p2, b2, by rw [ChainSeg_cons_iff]; exact ⟨h1, h2, h3, hseg⟩, hc⟩
    · rintro ⟨p2, b2, hseg, hc⟩
      rw [ChainSeg_cons_iff] at hseg
      exact ⟨hseg.1, hseg.2.1, hseg.2.2.1,
        (ih bp (GET_SUCC s bp) C).mpr ⟨p2, b2, hseg.2.2.2, hc⟩⟩

theorem ChainSeg_congr (s s2 : MState) (hhl : s2.heap_listp = s.heap_listp) :
    ∀ (Z : List Nat) (prev bp p2 b2 : Nat),
      (∀ x ∈ Z, GET_PRED s2 x = GET_PRED s x ∧ GET_SUCC s2 x = GET_SUCC s x) →
      ChainSeg s prev bp Z p2 b2 = true → ChainSeg s2 prev bp Z p2 b2 = true := by
  intro Z
  induction Z with
  | nil =>
    intro prev bp p2 b2 _ h
    rw [ChainSeg_nil_iff] at h ⊢
    exact h
  | cons x R ih =>
    intro prev bp p2 b2 hlk h
    rw [ChainSeg_cons_iff] at h ⊢
    obtain ⟨hbx, hbs, hpd, hrest⟩ := h
    subst hbx
    obtain ⟨hp, hsu⟩ := hlk bp (List.mem_cons_self _ _)
    refine ⟨rfl, by rw [hhl]; exact hbs, by rw [hp, hpd], ?_⟩
    rw [hsu]
    exact ih bp (GET_SUCC s bp) p2 b2 (fun y hy => hlk y (List.mem_cons_of_mem _ hy)) hrest

theorem ChainSeg_last (s : MState) :
    ∀ (Z : List Nat) (prev bp p2 b2 : Nat),
      ChainSeg s prev bp Z p2 b2 = true →
      (Z = [] ∧ prev = p2 ∧ bp = b2) ∨ (p2 ∈ Z ∧ GET_SUCC s p2 = b2) := by
  intro Z
  induction Z with
  | nil =>
    intro prev bp p2 b2 h
    rw [ChainSeg_nil_iff] at h
    exact Or.inl ⟨rfl, h⟩
  | cons x R ih =>
    intro prev bp p2 b2 h
    rw [ChainSeg_cons_iff] at h
    obtain ⟨hbx, hbs, hpd, hrest⟩ := h
    rcases ih bp (GET_SUCC s bp) p2 b2 hrest with ⟨hR, hp, hb⟩ | ⟨hm, hsu⟩
    · subst hbx
      exact Or.inr ⟨by rw [← hp]; exact List.mem_cons_self _ _, hp ▸ hb⟩
    · exact Or.inr ⟨List.mem_cons_of_mem _ hm, hsu⟩

theorem sameSetB_iff (l1 l2 : List Nat) :
    sameSetB l1 l2 = true ↔ ∀ a, a ∈ l1 ↔ a ∈ l2 := by
  simp only [sameSetB, Bool.and_eq_true, List.all_eq_true]
  constructor
  · rintro ⟨h1, h2⟩ a
    constructor
    · intro h
      simpa using h1 a h
    · intro h
      simpa using h2 a h
  · intro h
    constructor
    · intro a ha
      simpa using (h a).mp ha
    · intro a ha
      simpa using (h a).mpr ha

theorem freeAddrs_append :
    ∀ (A C : List (Nat × Nat × Bool)),
      freeAddrs (A ++ C) = freeAddrs A ++ freeAddrs C := by
  intro A C
  induction A with
  | nil => rfl
  | cons x R ih =>
    obtain ⟨a, sz, al⟩ := x
    cases al <;> simp [freeAddrs, ih]

theorem mem_freeAddrs :
    ∀ (bl : List (Nat × Nat × Bool)) (a : Nat),
      a ∈ freeAddrs bl ↔ ∃ sz, (a, sz, false) ∈ bl := by
  intro bl a
  induction bl with
  | nil => simp [freeAddrs]
  | cons x R ih =>
    obtain ⟨b, sz, al⟩ := x
    cases al
    · simp only [freeAddrs, List.mem_cons]
      constructor
      · rintro (rfl | h)
        · exact ⟨sz, Or.inl rfl⟩
        · obtain ⟨sz2, hm⟩ := ih.mp h
          exact ⟨sz2, Or.inr hm⟩
      · rintro ⟨sz2, he | hm⟩
        · injection he with h1 h2
          exact Or.inl h1
        · exact Or.inr (ih.mpr ⟨sz2, hm⟩)
    · simp only [freeAddrs, List.mem_cons]
      constructor
      · intro h
        obtain ⟨sz2, hm⟩ := ih.mp h
        exact ⟨sz2, Or.inr hm⟩
      · rintro ⟨sz2, he | hm⟩
        · exact absurd he (by simp)
        · exact ih.mpr ⟨sz2, hm⟩

/-- NoAdjFree is the chain of the pairwise condition "one of the two
neighbors is allocated". -/
theorem NoAdjFree_iff_chain :
    ∀ (bl : List (Nat × Nat × Bool)),
      NoAdjFree bl = true ↔ List.Chain' (fun x y => (x.2.2 || y.2.2) = true) bl := by
  intro bl
  match bl with
  | [] => simp [NoAdjFree]
  | [x] => simp [NoAdjFree]
  | x :: y :: r =>
    rw [List.chain'_cons]
    have := NoAdjFree_iff_chain (y :: r)
    simp only [NoAdjFree, Bool.and_eq_true]
    rw [this]

theorem BlocksOk_append_iff (m : Mem) :
    ∀ (A C : List (Nat × Nat × Bool)) (a e : Nat),
      BlocksOk m a (A ++ C) e = true ↔
      BlocksOk m a A (a + sizeSum A) = true ∧
        BlocksOk m (a + sizeSum A) C e = true := by
  intro A
  induction A with
  | nil =>
    intro C a e
    simp [sizeSum, BlocksOk_nil_iff]
  | cons x R ih =>
    intro C a e
    obtain ⟨b, sz, al⟩ := x
    rw [List.cons_append, BlocksOk_cons_iff, BlocksOk_cons_iff, ih]
    simp only [sizeSum]
    rw [show a + (sz + sizeSum R) = a + sz + sizeSum R from by omega]
    tauto

theorem BlocksOk_congr (m m2 : Mem) :
    ∀ (bl : List (Nat × Nat × Bool)) (a e : Nat),
      (∀ x ∈ bl, getW m2 (x.1 - 4) = getW m (x.1 - 4) ∧
        getW m2 (x.1 + x.2.1 - 8) = getW m (x.1 + x.2.1 - 8)) →
      BlocksOk m a bl e = true → BlocksOk m2 a bl e = true := by
  intro bl
  induction bl with
  | nil =>
    intro a e _ h
    rwa [BlocksOk_nil_iff] at h ⊢
  | cons x R ih =>
    intro a e hag h
    obtain ⟨b, sz, al⟩ := x
    rw [BlocksOk_cons_iff] at h ⊢
    obtain ⟨h1, h2, h3, h4, h5, h6⟩ := h
    obtain ⟨hh, hf⟩ := hag (b, sz, al) (List.mem_cons_self _ _)
    dsimp only at hh hf
    subst h1
    refine ⟨rfl, h2, h3, by rw [hh]; exact h4, by rw [hf]; exact h5,
      ih (b + sz) e (fun y hy => hag y (List.mem_cons_of_mem _ hy)) h6⟩

/-- Reading a word from a memory that agrees byte-for-byte on the word. -/
theorem getW_eq_of_bytes (m m2 : Mem) (p : Nat)
    (h : ∀ a, p ≤ a → a < p + 4 → m2 a = m a) : getW m2 p = getW m p := by
  simp only [getW, readByte]
  rw [h p (by omega) (by omega), h (p + 1) (by omega) (by omega),
    h (p + 2) (by omega) (by omega), h (p + 3) (by omega) (by omega)]

/-! ## Relink eq-lemmas: the four coalesce relink dataflows as explicit states -/

theorem are_adjacent_true_eq (s : MState) (bp p : Nat)
    (hp : GET_SUCC s bp = p) :
    are_adjacent s bp true =
      { s with
        mem := putW s.mem p (COMP_OFFSET s.heap_listp s.heap_listp),
        first_free := p } := by
  simp [are_adjacent, SET_PRED, hp]

theorem are_adjacent_false_eq (s : MState) (bp n w : Nat)
    (hn : GET_SUCC s bp = n) (hw : GET_SUCC s n = w) :
    are_adjacent s bp false =
      { s with
        mem :=
          (fun f => if w ≠ s.heap_listp then
              putW f w (COMP_OFFSET s.heap_listp bp) else f)
          (putW s.mem (bp + 4) (COMP_OFFSET s.heap_listp w)) } := by
  simp only [are_adjacent, SET_SUCC, SET_PRED, hn, hw, Bool.false_eq_true, if_false]
  split <;> rfl

theorem not_adjacent_false_eq (s : MState) (bp n q w : Nat)
    (hn : NEXT_BLKP s.mem bp = n)
    (hq : GET_PRED s n = q) (hw : GET_SUCC s n = w) :
    not_adjacent s bp false =
      { s with
        mem :=
          (fun f => if w ≠ s.heap_listp then
              putW f w (COMP_OFFSET s.heap_listp q) else f)
          (putW s.mem (q + 4) (COMP_OFFSET s.heap_listp w)) } := by
  simp only [not_adjacent, SET_SUCC, SET_PRED, hn, hq, hw, Bool.false_eq_true, if_false]
  split <;> rfl

theorem not_adjacent_true_eq_wne (s : MState) (bp p q w f0 : Nat)
    (hp : PREV_BLKP s.mem bp = p) (hq : GET_PRED s p = q) (hw : GET_SUCC s p = w)
    (hf : GET_SUCC s bp = f0) (hwhl : w ≠ s.heap_listp)
    (dqp : q + 8 ≤ p ∨ p + 8 ≤ q) (dqbp : q + 8 ≤ bp ∨ bp + 8 ≤ q)
    (dpbp : p + 8 ≤ bp ∨ bp + 8 ≤ p) (dwbp : w + 8 ≤ bp ∨ bp + 8 ≤ w) :
    not_adjacent s bp true =
      { s with
        mem :=
          putW (putW (putW (putW (putW s.mem (q + 4) (COMP_OFFSET s.heap_listp w))
            w (COMP_OFFSET s.heap_listp q))
            p (COMP_OFFSET s.heap_listp s.heap_listp))
            (p + 4) (COMP_OFFSET s.heap_listp f0))
            f0 (COMP_OFFSET s.heap_listp p),
        first_free := p } := by
  have hq2 : COMP_ADDRESS s.heap_listp (getW s.mem p) = q := by
    simpa [GET_PRED] using hq
  have hw2 : COMP_ADDRESS s.heap_listp (getW s.mem (p + 4)) = w := by
    simpa [GET_SUCC] using hw
  have hf2 : COMP_ADDRESS s.heap_listp (getW s.mem (bp + 4)) = f0 := by
    simpa [GET_SUCC] using hf
  simp only [not_adjacent, SET_SUCC, SET_PRED, GET_SUCC, GET_PRED, hp, if_true]
  rw [getW_putW_of_disjoint _ _ _ _ (by omega), hw2]
  rw [if_pos hwhl]
  rw [getW_putW_of_disjoint _ _ _ _ (by omega), hq2]
  dsimp only
  have hr3 : getW (putW (putW (putW s.mem (q + 4) (COMP_OFFSET s.heap_listp w)) w
      (COMP_OFFSET s.heap_listp q)) p (COMP_OFFSET s.heap_listp s.heap_listp))
      (bp + 4) = getW s.mem (bp + 4) := by
    rw [getW_putW_of_disjoint _ _ _ _ (by omega),
      getW_putW_of_disjoint _ _ _ _ (by omega),
      getW_putW_of_disjoint _ _ _ _ (by omega)]
  rw [hr3, hf2]
  rw [getW_putW_of_disjoint _ _ _ _ (by omega), hr3, hf2]

theorem not_adjacent_true_eq_whl (s : MState) (bp p q f0 : Nat)
    (hp : PREV_BLKP s.mem bp = p) (hq : GET_PRED s p = q)
    (hw : GET_SUCC s p = s.heap_listp) (hf : GET_SUCC s bp = f0)
    (dqp : q + 8 ≤ p ∨ p + 8 ≤ q) (dqbp : q + 8 ≤ bp ∨ bp + 8 ≤ q)
    (dpbp : p + 8 ≤ bp ∨ bp + 8 ≤ p) :
    not_adjacent s bp true =
      { s with
        mem :=
          putW (putW (putW (putW s.mem (q + 4)
            (COMP_OFFSET s.heap_listp s.heap_listp))
            p (COMP_OFFSET s.heap_listp s.heap_listp))
            (p + 4) (COMP_OFFSET s.heap_listp f0))
            f0 (COMP_OFFSET s.heap_listp p),
        first_free := p } := by
  have hq2 : COMP_ADDRESS s.heap_listp (getW s.mem p) = q := by
    simpa [GET_PRED] using hq
  have hw2 : COMP_ADDRESS s.heap_listp (getW s.mem (p + 4)) = s.heap_listp := by
    simpa [GET_SUCC] using hw
  have hf2 : COMP_ADDRESS s.heap_listp (getW s.mem (bp + 4)) = f0 := by
    simpa [GET_SUCC] using hf
  simp only [not_adjacent, SET_SUCC, SET_PRED, GET_SUCC, GET_PRED, hp, if_true]
  rw [getW_putW_of_disjoint _ _ _ _ (by omega), hw2]
  rw [if_neg (by simp)]
  rw [hq2]
  dsimp only
  have hr2 : getW (putW (putW s.mem (q + 4)
      (COMP_OFFSET s.heap_listp s.heap_listp)) p
      (COMP_OFFSET s.heap_listp s.heap_listp)) (bp + 4) = getW s.mem (bp + 4) := by
    rw [getW_putW_of_disjoint _ _ _ _ (by omega),
      getW_putW_of_disjoint _ _ _ _ (by omega)]
  rw [hr2, hf2]
  rw [getW_putW_of_disjoint _ _ _ _ (by omega), hr2, hf2]

/-! ## Relink chain lemmas -/

/-- are_adjacent in case 3 (merging with the physical predecessor p that is
also the list successor of the head bp): the chain drops the old head and
re-heads at p, whose predecessor link is pointed at the sentinel. -/
theorem are_adjacent_true_chain (s : MState) (bp p : Nat) (rest : List Nat)
    (hch : FreeChainOk s s.heap_listp bp (bp :: p :: rest) = true)
    (hnd : ∀ x ∈ bp :: p :: rest,
      x % 8 = 0 ∧ s.heap_listp + 8 ≤ x ∧ x < s.heap_listp + W32)
    (hhl8 : s.heap_listp % 8 = 0) (hWW : s.heap_listp + W32 ≤ W64) :
    FreeChainOk (are_adjacent s bp true) s.heap_listp p (p :: rest) = true ∧
    (are_adjacent s bp true).first_free = p := by
  have hnodup := FreeChainOk_nodup s (bp :: p :: rest) s.heap_listp bp hch
  rw [FreeChainOk_cons_iff] at hch
  obtain ⟨-, hbphl, hbpp, hch⟩ := hch
  rw [FreeChainOk_cons_iff] at hch
  obtain ⟨hsbp, hphl, hpp, hrest⟩ := hch
  rw [hsbp] at hphl hpp hrest
  obtain ⟨h8p, hlp, hpW⟩ := hnd p (by simp)
  rw [are_adjacent_true_eq s bp p hsbp]
  refine ⟨?_, rfl⟩
  rw [FreeChainOk_cons_iff]
  refine ⟨rfl, hphl, ?_, ?_⟩
  · simp only [GET_PRED]
    rw [getW_putW_self]
    exact comp_roundtrip _ _ (Nat.le_refl _) (by omega) hWW
  · have hsucc : GET_SUCC { s with
        mem := putW s.mem p (COMP_OFFSET s.heap_listp s.heap_listp),
        first_free := p } p = GET_SUCC s p := by
      simp only [GET_SUCC]
      rw [getW_putW_of_disjoint _ _ _ _ (by omega)]
    rw [hsucc]
    refine FreeChainOk_congr s { s with
      mem := putW s.mem p (COMP_OFFSET s.heap_listp s.heap_listp),
      first_free := p } rfl rest p (GET_SUCC s p) (fun x hx => ?_) hrest
    obtain ⟨h8x, hlx, hxW⟩ := hnd x (by simp [hx])
    have hxp : x ≠ p := by
      intro he
      subst he
      simp [List.nodup_cons] at hnodup
      exact hnodup.2.1 hx
    constructor
    · simp only [GET_PRED]
      rw [getW_putW_of_disjoint _ _ _ _ (by omega)]
    · simp only [GET_SUCC]
      rw [getW_putW_of_disjoint _ _ _ _ (by omega)]

/-- are_adjacent in case 2 (merging with the physical successor n that is
also the list successor of the head hd): the chain drops its second node n,
pointing the head's successor at the node after n and, when that node is
not the sentinel, its predecessor back at the head. -/
theorem are_adjacent_false_chain (s : MState) (hd n : Nat) (R : List Nat)
    (hch : FreeChainOk s s.heap_listp hd (hd :: n :: R) = true)
    (hnd : ∀ x ∈ hd :: n :: R,
      x % 8 = 0 ∧ s.heap_listp + 8 ≤ x ∧ x < s.heap_listp + W32)
    (hhl8 : s.heap_listp % 8 = 0) (hWW : s.heap_listp + W32 ≤ W64) :
    FreeChainOk (are_adjacent s hd false) s.heap_listp hd (hd :: R) = true ∧
    (are_adjacent s hd false).first_free = s.first_free := by
  have hnodup := FreeChainOk_nodup s (hd :: n :: R) s.heap_listp hd hch
  rw [FreeChainOk_cons_iff] at hch
  obtain ⟨-, hhdhl, hhdp, hch⟩ := hch
  rw [FreeChainOk_cons_iff] at hch
  obtain ⟨hshd, hnhl, hnp, hrest⟩ := hch
  rw [hshd] at hnhl hnp hrest
  obtain ⟨h8hd, hlhd, hhdW⟩ := hnd hd (by simp)
  cases R with
  | nil =>
    rw [FreeChainOk_nil_iff] at hrest
    rw [are_adjacent_false_eq s hd n s.heap_listp hshd hrest]
    dsimp only
    rw [if_neg (by simp)]
    refine ⟨?_, rfl⟩
    rw [FreeChainOk_cons_iff]
    refine ⟨rfl, hhdhl, ?_, ?_⟩
    · simp only [GET_PRED]
      rw [getW_putW_of_disjoint _ _ _ _ (by omega)]
      exact hhdp
    · rw [FreeChainOk_nil_iff]
      simp only [GET_SUCC]
      rw [getW_putW_self]
      exact comp_roundtrip _ _ (Nat.le_refl _) (by omega) hWW
  | cons r0 R2 =>
    rw [FreeChainOk_cons_iff] at hrest
    obtain ⟨hsn, hr0hl, hr0p, hrest2⟩ := hrest
    rw [hsn] at hr0hl hr0p hrest2
    obtain ⟨h8r0, hlr0, hr0W⟩ := hnd r0 (by simp)
    have hnd2 : hd ∉ n :: r0 :: R2 ∧ n ∉ r0 :: R2 ∧ r0 ∉ R2 := by
      rcases List.nodup_cons.mp hnodup with ⟨h1, h2⟩
      rcases List.nodup_cons.mp h2 with ⟨h3, h4⟩
      rcases List.nodup_cons.mp h4 with ⟨h5, -⟩
      exact ⟨h1, h3, h5⟩
    have hr0hd : r0 ≠ hd := fun he => hnd2.1 (by simp [he])
    rw [are_adjacent_false_eq s hd n r0 hshd hsn]
    dsimp only
    rw [if_pos hr0hl]
    refine ⟨?_, rfl⟩
    rw [FreeChainOk_cons_iff]
    refine ⟨rfl, hhdhl, ?_, ?_⟩
    · simp only [GET_PRED]
      rw [getW_putW_of_disjoint _ _ _ _ (by omega),
        getW_putW_of_disjoint _ _ _ _ (by omega)]
      exact hhdp
    · have hsucc : GET_SUCC { s with
          mem := putW (putW s.mem (hd + 4) (COMP_OFFSET s.heap_listp r0)) r0
            (COMP_OFFSET s.heap_listp hd) } hd = r0 := by
        simp only [GET_SUCC]
        rw [getW_putW_of_disjoint _ _ _ _ (by omega), getW_putW_self]
        exact comp_roundtrip _ _ (by omega) (by omega) hWW
      rw [hsucc, FreeChainOk_cons_iff]
      refine ⟨rfl, hr0hl, ?_, ?_⟩
      · simp only [GET_PRED]
        rw [getW_putW_self]
        exact comp_roundtrip _ _ (by omega) (by omega) hWW
      · have hsucc2 : GET_SUCC { s with
            mem := putW (putW s.mem (hd + 4) (COMP_OFFSET s.heap_listp r0)) r0
              (COMP_OFFSET s.heap_listp hd) } r0 = GET_SUCC s r0 := by
          simp only [GET_SUCC]
          rw [getW_putW_of_disjoint _ _ _ _ (by omega),
            getW_putW_of_disjoint _ _ _ _ (by omega)]
        rw [hsucc2]
        refine FreeChainOk_congr s { s with
          mem := putW (putW s.mem (hd + 4) (COMP_OFFSET s.heap_listp r0)) r0
            (COMP_OFFSET s.heap_listp hd) } rfl R2 r0 (GET_SUCC s r0)
          (fun x hx => ?_) hrest2
        obtain ⟨h8x, hlx, hxW⟩ := hnd x (by simp [hx])
        have hxhd : x ≠ hd := by
          intro he
          refine hnd2.1 ?_
          rw [← he]
          simp [hx]
        have hxr0 : x ≠ r0 := fun he => hnd2.2.2 (he ▸ hx)
        constructor
        · simp only [GET_PRED]
          rw [getW_putW_of_disjoint _ _ _ _ (by omega),
            getW_putW_of_disjoint _ _ _ _ (by omega)]
        · simp only [GET_SUCC]
          rw [getW_putW_of_disjoint _ _ _ _ (by omega),
            getW_putW_of_disjoint _ _ _ _ (by omega)]

/-- not_adjacent in case 2 (merging with the physical successor n that is
not the list successor of the head): n is spliced out of the chain, its list
predecessor's successor pointed past it and, when the node after n is not
the sentinel, that node's predecessor pointed back. -/
theorem not_adjacent_false_chain (s : MState) (bp n hd q : Nat) (Z Y : List Nat)
    (hnext : NEXT_BLKP s.mem bp = n)
    (hch : FreeChainOk s s.heap_listp hd (Z ++ q :: n :: Y) = true)
    (hnd : ∀ x ∈ Z ++ q :: n :: Y,
      x % 8 = 0 ∧ s.heap_listp + 8 ≤ x ∧ x < s.heap_listp + W32)
    (hhl8 : s.heap_listp % 8 = 0) (hWW : s.heap_listp + W32 ≤ W64) :
    FreeChainOk (not_adjacent s bp false) s.heap_listp hd (Z ++ q :: Y) = true ∧
    (not_adjacent s bp false).first_free = s.first_free := by
  have hnodup := FreeChainOk_nodup s (Z ++ q :: n :: Y) s.heap_listp hd hch
  have hdisj : ∀ x ∈ Z, x ∉ q :: n :: Y := fun x hx =>
    (List.nodup_append.mp hnodup).2.2 hx
  have hnodup2 : (q :: n :: Y).Nodup := (List.nodup_append.mp hnodup).2.1
  have hqny : q ∉ n :: Y := (List.nodup_cons.mp hnodup2).1
  have hnY : n ∉ Y := (List.nodup_cons.mp (List.nodup_cons.mp hnodup2).2).1
  have hYnd : Y.Nodup := (List.nodup_cons.mp (List.nodup_cons.mp hnodup2).2).2
  obtain ⟨hq8, hql, hqW⟩ := hnd q (by simp)
  obtain ⟨p2, b2, hseg, hC⟩ :=
    (chain_append_iff s Z s.heap_listp hd (q :: n :: Y)).mp hch
  rw [FreeChainOk_cons_iff] at hC
  obtain ⟨hb2, hqhl, hqp, hC⟩ := hC
  rw [hb2] at hseg hqhl hqp hC
  rw [FreeChainOk_cons_iff] at hC
  obtain ⟨hsq, hnhl, hnp, hC⟩ := hC
  rw [hsq] at hnhl hnp hC
  cases Y with
  | nil =>
    rw [FreeChainOk_nil_iff] at hC
    rw [not_adjacent_false_eq s bp n q s.heap_listp hnext hnp hC]
    dsimp only
    rw [if_neg (by simp)]
    refine ⟨?_, rfl⟩
    refine (chain_append_iff _ Z s.heap_listp hd (q :: [])).mpr ⟨p2, q, ?_, ?_⟩
    · refine ChainSeg_congr s { s with
        mem := putW s.mem (q + 4) (COMP_OFFSET s.heap_listp s.heap_listp) } rfl
        Z s.heap_listp hd p2 q (fun x hx => ?_) hseg
      obtain ⟨hx8, hxl, hxW⟩ := hnd x (by simp [hx])
      have hxq : x ≠ q := fun he => hdisj x hx (by simp [he])
      constructor
      · simp only [GET_PRED]
        rw [getW_putW_of_disjoint _ _ _ _ (by omega)]
      · simp only [GET_SUCC]
        rw [getW_putW_of_disjoint _ _ _ _ (by omega)]
    · rw [FreeChainOk_cons_iff]
      refine ⟨rfl, hqhl, ?_, ?_⟩
      · simp only [GET_PRED]
        rw [getW_putW_of_disjoint _ _ _ _ (by omega)]
        exact hqp
      · rw [FreeChainOk_nil_iff]
        simp only [GET_SUCC]
        rw [getW_putW_self]
        exact comp_roundtrip _ _ (Nat.le_refl _) (by omega) hWW
  | cons y0 Y2 =>
    rw [FreeChainOk_cons_iff] at hC
    obtain ⟨hsn, hy0hl, hy0p, hY2⟩ := hC
    rw [hsn] at hy0hl hy0p hY2
    obtain ⟨hy08, hy0l, hy0W⟩ := hnd y0 (by simp)
    have hqy0 : q ≠ y0 := fun he => hqny (by simp [he])
    have hy0Y2 : y0 ∉ Y2 := (List.nodup_cons.mp hYnd).1
    rw [not_adjacent_false_eq s bp n q y0 hnext hnp hsn]
    dsimp only
    rw [if_pos hy0hl]
    refine ⟨?_, rfl⟩
    refine (chain_append_iff _ Z s.heap_listp hd (q :: y0 :: Y2)).mpr ⟨p2, q, ?_, ?_⟩
    · refine ChainSeg_congr s { s with
        mem := putW (putW s.mem (q + 4) (COMP_OFFSET s.heap_listp y0)) y0
          (COMP_OFFSET s.heap_listp q) } rfl
        Z s.heap_listp hd p2 q (fun x hx => ?_) hseg
      obtain ⟨hx8, hxl, hxW⟩ := hnd x (by simp [hx])
      have hxq : x ≠ q := fun he => hdisj x hx (by simp [he])
      have hxy0 : x ≠ y0 := fun he => hdisj x hx (by simp [he])
      constructor
      · simp only [GET_PRED]
        rw [getW_putW_of_disjoint _ _ _ _ (by omega),
          getW_putW_of_disjoint _ _ _ _ (by omega)]
      · simp only [GET_SUCC]
        rw [getW_putW_of_disjoint _ _ _ _ (by omega),
          getW_putW_of_disjoint _ _ _ _ (by omega)]
    · rw [FreeChainOk_cons_iff]
      refine ⟨rfl, hqhl, ?_, ?_⟩
      · simp only [GET_PRED]
        rw [getW_putW_of_disjoint _ _ _ _ (by omega),
          getW_putW_of_disjoint _ _ _ _ (by omega)]
        exact hqp
      · have hsucc : GET_SUCC { s with
            mem := putW (putW s.mem (q + 4) (COMP_OFFSET s.heap_listp y0)) y0
              (COMP_OFFSET s.heap_listp q) } q = y0 := by
          simp only [GET_SUCC]
          rw [getW_putW_of_disjoint _ _ _ _ (by omega), getW_putW_self]
          exact comp_roundtrip _ _ (by omega) (by omega) hWW
        rw [hsucc, FreeChainOk_cons_iff]
        refine ⟨rfl, hy0hl, ?_, ?_⟩
        · simp only [GET_PRED]
          rw [getW_putW_self]
          exact comp_roundtrip _ _ (by omega) (by omega) hWW
        · have hsucc2 : GET_SUCC { s with
              mem := putW (putW s.mem (q + 4) (COMP_OFFSET s.heap_listp y0)) y0
                (COMP_OFFSET s.heap_listp q) } y0 = GET_SUCC s y0 := by
            simp only [GET_SUCC]
            rw [getW_putW_of_disjoint _ _ _ _ (by omega),
              getW_putW_of_disjoint _ _ _ _ (by omega)]
          rw [hsucc2]
          refine FreeChainOk_congr s { s with
            mem := putW (putW s.mem (q + 4) (COMP_OFFSET s.heap_listp y0)) y0
              (COMP_OFFSET s.heap_listp q) } rfl Y2 y0 (GET_SUCC s y0)
            (fun x hx => ?_) hY2
          obtain ⟨hx8, hxl, hxW⟩ := hnd x (by simp [hx])
          have hxq : x ≠ q := fun he => hqny (by simp [← he, hx])
          have hxy0 : x ≠ y0 := fun he => hy0Y2 (he ▸ hx)
          constructor
          · simp only [GET_PRED]
            rw [getW_putW_of_disjoint _ _ _ _ (by omega),
              getW_putW_of_disjoint _ _ _ _ (by omega)]
          · simp only [GET_SUCC]
            rw [getW_putW_of_disjoint _ _ _ _ (by omega),
              getW_putW_of_disjoint _ _ _ _ (by omega)]

/-- not_adjacent in case 3 (merging with the physical predecessor p that is
not the list successor of the head bp): p is spliced out of its chain
position and takes over the head position of bp, inheriting the sentinel
predecessor and bp's successor, whose predecessor is pointed back at p. -/
theorem not_adjacent_true_chain (s : MState) (bp p q : Nat) (X Y : List Nat)
    (hprev : PREV_BLKP s.mem bp = p)
    (hch : FreeChainOk s s.heap_listp bp (bp :: (X ++ q :: p :: Y)) = true)
    (hnd : ∀ x ∈ bp :: (X ++ q :: p :: Y),
      x % 8 = 0 ∧ s.heap_listp + 8 ≤ x ∧ x < s.heap_listp + W32)
    (hhl8 : s.heap_listp % 8 = 0) (hWW : s.heap_listp + W32 ≤ W64) :
    FreeChainOk (not_adjacent s bp true) s.heap_listp p (p :: (X ++ q :: Y)) = true ∧
    (not_adjacent s bp true).first_free = p := by
  have hnodup := FreeChainOk_nodup s (bp :: (X ++ q :: p :: Y)) s.heap_listp bp hch
  have hbpF : bp ∉ X ++ q :: p :: Y := (List.nodup_cons.mp hnodup).1
  have hFnd : (X ++ q :: p :: Y).Nodup := (List.nodup_cons.mp hnodup).2
  have hXdisj : ∀ x ∈ X, x ∉ q :: p :: Y := fun x hx =>
    (List.nodup_append.mp hFnd).2.2 hx
  have hqpYnd : (q :: p :: Y).Nodup := (List.nodup_append.mp hFnd).2.1
  have hXnd : X.Nodup := (List.nodup_append.mp hFnd).1
  have hqpY : q ∉ p :: Y := (List.nodup_cons.mp hqpYnd).1
  have hpY : p ∉ Y := (List.nodup_cons.mp (List.nodup_cons.mp hqpYnd).2).1
  have hYnd : Y.Nodup := (List.nodup_cons.mp (List.nodup_cons.mp hqpYnd).2).2
  obtain ⟨hq8, hql, hqW⟩ := hnd q (by simp)
  obtain ⟨hp8, hpl, hpW⟩ := hnd p (by simp)
  obtain ⟨hbp8, hbpl, hbpW⟩ := hnd bp (by simp)
  have hqbp : q ≠ bp := fun he => hbpF (by simp [← he])
  have hpbp : p ≠ bp := fun he => hbpF (by simp [← he])
  have hqp2 : q ≠ p := fun he => hqpY (by simp [he])
  rw [FreeChainOk_cons_iff] at hch
  obtain ⟨-, hbphl, hbpp, hF⟩ := hch
  obtain ⟨p3, b3, hseg, hC⟩ :=
    (chain_append_iff s X bp (GET_SUCC s bp) (q :: p :: Y)).mp hF
  rw [FreeChainOk_cons_iff] at hC
  obtain ⟨hb3, hqhl, hqp3, hC⟩ := hC
  rw [hb3] at hseg hqhl hqp3 hC
  rw [FreeChainOk_cons_iff] at hC
  obtain ⟨hsq, hphl, hpq, hC⟩ := hC
  rw [hsq] at hphl hpq hC
  cases Y with
  | nil =>
    rw [FreeChainOk_nil_iff] at hC
    cases X with
    | nil =>
      rw [ChainSeg_nil_iff] at hseg
      obtain ⟨hp3bp, hf0q⟩ := hseg
      rw [not_adjacent_true_eq_whl s bp p q q hprev hpq hC hf0q
        (by omega) (by omega) (by omega)]
      rw [List.nil_append]
      set M := putW (putW (putW (putW s.mem (q + 4)
        (COMP_OFFSET s.heap_listp s.heap_listp)) p
        (COMP_OFFSET s.heap_listp s.heap_listp)) (p + 4)
        (COMP_OFFSET s.heap_listp q)) q (COMP_OFFSET s.heap_listp p) with hM
      have hv1 : getW M p = COMP_OFFSET s.heap_listp s.heap_listp % W32 := by
        rw [hM, getW_putW_of_disjoint _ _ _ _ (by omega),
          getW_putW_of_disjoint _ _ _ _ (by omega), getW_putW_self]
      have hv2 : getW M (p + 4) = COMP_OFFSET s.heap_listp q % W32 := by
        rw [hM, getW_putW_of_disjoint _ _ _ _ (by omega), getW_putW_self]
      have hv3 : getW M q = COMP_OFFSET s.heap_listp p % W32 := by
        rw [hM, getW_putW_self]
      have hv4 : getW M (q + 4) = COMP_OFFSET s.heap_listp s.heap_listp % W32 := by
        rw [hM, getW_putW_of_disjoint _ _ _ _ (by omega),
          getW_putW_of_disjoint _ _ _ _ (by omega),
          getW_putW_of_disjoint _ _ _ _ (by omega), getW_putW_self]
      refine ⟨?_, rfl⟩
      rw [FreeChainOk_cons_iff]
      refine ⟨rfl, hphl, ?_, ?_⟩
      · simp only [GET_PRED]
        rw [hv1]
        exact comp_roundtrip _ _ (Nat.le_refl _) (by omega) hWW
      · have hs1 : GET_SUCC { s with mem := M, first_free := p } p = q := by
          simp only [GET_SUCC]
          rw [hv2]
          exact comp_roundtrip _ _ (by omega) (by omega) hWW
        rw [hs1, FreeChainOk_cons_iff]
        refine ⟨rfl, hqhl, ?_, ?_⟩
        · simp only [GET_PRED]
          rw [hv3]
          exact comp_roundtrip _ _ (by omega) (by omega) hWW
        · have hs2 : GET_SUCC { s with mem := M, first_free := p } q =
              s.heap_listp := by
            simp only [GET_SUCC]
            rw [hv4]
            exact comp_roundtrip _ _ (Nat.le_refl _) (by omega) hWW
          rw [hs2, FreeChainOk_nil_iff]
    | cons x0 X2 =>
      rw [ChainSeg_cons_iff] at hseg
      obtain ⟨hx0, hx0hl, hx0pd, hseg⟩ := hseg
      rw [hx0] at hx0hl hx0pd hseg
      obtain ⟨hx08, hx0l, hx0W⟩ := hnd x0 (by simp)
      have hx0q : x0 ≠ q := fun he => hXdisj x0 (by simp) (by simp [he])
      have hx0p2 : x0 ≠ p := fun he => hXdisj x0 (by simp) (by simp [he])
      have hx0X2 : x0 ∉ X2 := (List.nodup_cons.mp hXnd).1
      rw [not_adjacent_true_eq_whl s bp p q x0 hprev hpq hC hx0
        (by omega) (by omega) (by omega)]
      rw [List.cons_append]
      set M := putW (putW (putW (putW s.mem (q + 4)
        (COMP_OFFSET s.heap_listp s.heap_listp)) p
        (COMP_OFFSET s.heap_listp s.heap_listp)) (p + 4)
        (COMP_OFFSET s.heap_listp x0)) x0 (COMP_OFFSET s.heap_listp p) with hM
      have hv1 : getW M p = COMP_OFFSET s.heap_listp s.heap_listp % W32 := by
        rw [hM, getW_putW_of_disjoint _ _ _ _ (by omega),
          getW_putW_of_disjoint _ _ _ _ (by omega), getW_putW_self]
      have hv2 : getW M (p + 4) = COMP_OFFSET s.heap_listp x0 % W32 := by
        rw [hM, getW_putW_of_disjoint _ _ _ _ (by omega), getW_putW_self]
      have hv3 : getW M x0 = COMP_OFFSET s.heap_listp p % W32 := by
        rw [hM, getW_putW_self]
      have hv4 : getW M (x0 + 4) = getW s.mem (x0 + 4) := by
        rw [hM, getW_putW_of_disjoint _ _ _ _ (by omega),
          getW_putW_of_disjoint _ _ _ _ (by omega),
          getW_putW_of_disjoint _ _ _ _ (by omega),
          getW_putW_of_disjoint _ _ _ _ (by omega)]
      have hv5 : getW M q = getW s.mem q := by
        rw [hM, getW_putW_of_disjoint _ _ _ _ (by omega),
          getW_putW_of_disjoint _ _ _ _ (by omega),
          getW_putW_of_disjoint _ _ _ _ (by omega),
          getW_putW_of_disjoint _ _ _ _ (by omega)]
      have hv6 : getW M (q + 4) = COMP_OFFSET s.heap_listp s.heap_listp % W32 := by
        rw [hM, getW_putW_of_disjoint _ _ _ _ (by omega),
          getW_putW_of_disjoint _ _ _ _ (by omega),
          getW_putW_of_disjoint _ _ _ _ (by omega), getW_putW_self]
      have hframe : ∀ x ∈ X2, getW M x = getW s.mem x ∧
          getW M (x + 4) = getW s.mem (x + 4) := by
        intro x hx
        have hxX : x ∈ x0 :: X2 := List.mem_cons_of_mem _ hx
        have hxq : x ≠ q := fun he => hXdisj x hxX (by simp [he])
        have hxp : x ≠ p := fun he => hXdisj x hxX (by simp [he])
        have hxx0 : x ≠ x0 := fun he => hx0X2 (he ▸ hx)
        obtain ⟨hx8, hxl, hxW⟩ := hnd x (List.mem_cons_of_mem _ (List.mem_append_left _ hxX))
        constructor
        · rw [hM, getW_putW_of_disjoint _ _ _ _ (by omega),
            getW_putW_of_disjoint _ _ _ _ (by omega),
            getW_putW_of_disjoint _ _ _ _ (by omega),
            getW_putW_of_disjoint _ _ _ _ (by omega)]
        · rw [hM, getW_putW_of_disjoint _ _ _ _ (by omega),
            getW_putW_of_disjoint _ _ _ _ (by omega),
            getW_putW_of_disjoint _ _ _ _ (by omega),
            getW_putW_of_disjoint _ _ _ _ (by omega)]
      refine ⟨?_, rfl⟩
      rw [FreeChainOk_cons_iff]
      refine ⟨rfl, hphl, ?_, ?_⟩
      · simp only [GET_PRED]
        rw [hv1]
        exact comp_roundtrip _ _ (Nat.le_refl _) (by omega) hWW
      · have hs1 : GET_SUCC { s with mem := M, first_free := p } p = x0 := by
          simp only [GET_SUCC]
          rw [hv2]
          exact comp_roundtrip _ _ (by omega) (by omega) hWW
        rw [hs1, FreeChainOk_cons_iff]
        refine ⟨rfl, hx0hl, ?_, ?_⟩
        · simp only [GET_PRED]
          rw [hv3]
          exact comp_roundtrip _ _ (by omega) (by omega) hWW
        · have hs2 : GET_SUCC { s with mem := M, first_free := p } x0 =
              GET_SUCC s x0 := by
            simp only [GET_SUCC]
            rw [hv4]
          rw [hs2]
          refine (chain_append_iff _ X2 x0 (GET_SUCC s x0) (q :: [])).mpr
            ⟨p3, q, ?_, ?_⟩
          · refine ChainSeg_congr s { s with mem := M, first_free := p } rfl
              X2 x0 (GET_SUCC s x0) p3 q (fun x hx => ?_) hseg
            obtain ⟨hgm, hgm2⟩ := hframe x hx
            constructor
            · simp only [GET_PRED]
              rw [hgm]
            · simp only [GET_SUCC]
              rw [hgm2]
          · rw [FreeChainOk_cons_iff]
            refine ⟨rfl, hqhl, ?_, ?_⟩
            · simp only [GET_PRED]
              rw [hv5]
              exact hqp3
            · have hs3 : GET_SUCC { s with mem := M, first_free := p } q =
                  s.heap_listp := by
                simp only [GET_SUCC]
                rw [hv6]
                exact comp_roundtrip _ _ (Nat.le_refl _) (by omega) hWW
              rw [hs3, FreeChainOk_nil_iff]
  | cons y0 Y2 =>
    rw [FreeChainOk_cons_iff] at hC
    obtain ⟨hsp, hy0hl, hy0pd, hY2⟩ := hC
    rw [hsp] at hy0hl hy0pd hY2
    obtain ⟨hy08, hy0l, hy0W⟩ := hnd y0 (by simp)
    have hqy0 : q ≠ y0 := fun he => hqpY (by simp [he])
    have hpy0 : p ≠ y0 := fun he => hpY (by simp [← he])
    have hy0Y2 : y0 ∉ Y2 := (List.nodup_cons.mp hYnd).1
    have hy0bp : y0 ≠ bp := fun he => hbpF (by simp [← he])
    cases X with
    | nil =>
      rw [ChainSeg_nil_iff] at hseg
      obtain ⟨hp3bp, hf0q⟩ := hseg
      rw [not_adjacent_true_eq_wne s bp p q y0 q hprev hpq hsp hf0q hy0hl
        (by omega) (by omega) (by omega) (by omega)]
      rw [List.nil_append]
      set M := putW (putW (putW (putW (putW s.mem (q + 4)
        (COMP_OFFSET s.heap_listp y0)) y0 (COMP_OFFSET s.heap_listp q)) p
        (COMP_OFFSET s.heap_listp s.heap_listp)) (p + 4)
        (COMP_OFFSET s.heap_listp q)) q (COMP_OFFSET s.heap_listp p) with hM
      have hv1 : getW M p = COMP_OFFSET s.heap_listp s.heap_listp % W32 := by
        rw [hM, getW_putW_of_disjoint _ _ _ _ (by omega),
          getW_putW_of_disjoint _ _ _ _ (by omega), getW_putW_self]
      have hv2 : getW M (p + 4) = COMP_OFFSET s.heap_listp q % W32 := by
        rw [hM, getW_putW_of_disjoint _ _ _ _ (by omega), getW_putW_self]
      have hv3 : getW M q = COMP_OFFSET s.heap_listp p % W32 := by
        rw [hM, getW_putW_self]
      have hv4 : getW M (q + 4) = COMP_OFFSET s.heap_listp y0 % W32 := by
        rw [hM, getW_putW_of_disjoint _ _ _ _ (by omega),
          getW_putW_of_disjoint _ _ _ _ (by omega),
          getW_putW_of_disjoint _ _ _ _ (by omega),
          getW_putW_of_disjoint _ _ _ _ (by omega), getW_putW_self]
      have hv5 : getW M y0 = COMP_OFFSET s.heap_listp q % W32 := by
        rw [hM, getW_putW_of_disjoint _ _ _ _ (by omega),
          getW_putW_of_disjoint _ _ _ _ (by omega),
          getW_putW_of_disjoint _ _ _ _ (by omega), getW_putW_self]
      have hv6 : getW M (y0 + 4) = getW s.mem (y0 + 4) := by
        rw [hM, getW_putW_of_disjoint _ _ _ _ (by omega),
          getW_putW_of_disjoint _ _ _ _ (by omega),
          getW_putW_of_disjoint _ _ _ _ (by omega),
          getW_putW_of_disjoint _ _ _ _ (by omega),
          getW_putW_of_disjoint _ _ _ _ (by omega)]
      have hframe : ∀ x ∈ Y2, getW M x = getW s.mem x ∧
          getW M (x + 4) = getW s.mem (x + 4) := by
        intro x hx
        have hxY : x ∈ y0 :: Y2 := List.mem_cons_of_mem _ hx
        have hxq : x ≠ q := fun he => hqpY (by simp [← he, hxY])
        have hxp : x ≠ p := fun he => hpY (by rw [← he]; simp [hx])
        have hxy0 : x ≠ y0 := fun he => hy0Y2 (he ▸ hx)
        obtain ⟨hx8, hxl, hxW⟩ := hnd x (List.mem_cons_of_mem _ (List.mem_append_right _ (List.mem_cons_of_mem _ (List.mem_cons_of_mem _ hxY))))
        constructor
        · rw [hM, getW_putW_of_disjoint _ _ _ _ (by omega),
            getW_putW_of_disjoint _ _ _ _ (by omega),
            getW_putW_of_disjoint _ _ _ _ (by omega),
            getW_putW_of_disjoint _ _ _ _ (by omega),
            getW_putW_of_disjoint _ _ _ _ (by omega)]
        · rw [hM, getW_putW_of_disjoint _ _ _ _ (by omega),
            getW_putW_of_disjoint _ _ _ _ (by omega),
            getW_putW_of_disjoint _ _ _ _ (by omega),
            getW_putW_of_disjoint _ _ _ _ (by omega),
            getW_putW_of_disjoint _ _ _ _ (by omega)]
      refine ⟨?_, rfl⟩
      rw [FreeChainOk_cons_iff]
      refine ⟨rfl, hphl, ?_, ?_⟩
      · simp only [GET_PRED]
        rw [hv1]
        exact comp_roundtrip _ _ (Nat.le_refl _) (by omega) hWW
      · have hs1 : GET_SUCC { s with mem := M, first_free := p } p = q := by
          simp only [GET_SUCC]
          rw [hv2]
          exact comp_roundtrip _ _ (by omega) (by omega) hWW
        rw [hs1, FreeChainOk_cons_iff]
        refine ⟨rfl, hqhl, ?_, ?_⟩
        · simp only [GET_PRED]
          rw [hv3]
          exact comp_roundtrip _ _ (by omega) (by omega) hWW
        · have hs2 : GET_SUCC { s with mem := M, first_free := p } q = y0 := by
            simp only [GET_SUCC]
            rw [hv4]
            exact comp_roundtrip _ _ (by omega) (by omega) hWW
          rw [hs2, FreeChainOk_cons_iff]
          refine ⟨rfl, hy0hl, ?_, ?_⟩
          · simp only [GET_PRED]
            rw [hv5]
            exact comp_roundtrip _ _ (by omega) (by omega) hWW
          · have hs3 : GET_SUCC { s with mem := M, first_free := p } y0 =
                GET_SUCC s y0 := by
              simp only [GET_SUCC]
              rw [hv6]
            rw [hs3]
            refine FreeChainOk_congr s { s with mem := M, first_free := p } rfl
              Y2 y0 (GET_SUCC s y0) (fun x hx => ?_) hY2
            obtain ⟨hgm, hgm2⟩ := hframe x hx
            constructor
            · simp only [GET_PRED]
              rw [hgm]
            · simp only [GET_SUCC]
              rw [hgm2]
    | cons x0 X2 =>
      rw [ChainSeg_cons_iff] at hseg
      obtain ⟨hx0, hx0hl, hx0pd, hseg⟩ := hseg
      rw [hx0] at hx0hl hx0pd hseg
      obtain ⟨hx08, hx0l, hx0W⟩ := hnd x0 (by simp)
      have hx0q : x0 ≠ q := fun he => hXdisj x0 (by simp) (by simp [he])
      have hx0p2 : x0 ≠ p := fun he => hXdisj x0 (by simp) (by simp [he])
      have hx0y0 : x0 ≠ y0 := fun he => hXdisj x0 (by simp) (by simp [he])
      have hx0X2 : x0 ∉ X2 := (List.nodup_cons.mp hXnd).1
      rw [not_adjacent_true_eq_wne s bp p q y0 x0 hprev hpq hsp hx0 hy0hl
        (by omega) (by omega) (by omega) (by omega)]
      rw [List.cons_append]
      set M := putW (putW (putW (putW (putW s.mem (q + 4)
        (COMP_OFFSET s.heap_listp y0)) y0 (COMP_OFFSET s.heap_listp q)) p
        (COMP_OFFSET s.heap_listp s.heap_listp)) (p + 4)
        (COMP_OFFSET s.heap_listp x0)) x0 (COMP_OFFSET s.heap_listp p) with hM
      have hv1 : getW M p = COMP_OFFSET s.heap_listp s.heap_listp % W32 := by
        rw [hM, getW_putW_of_disjoint _ _ _ _ (by omega),
          getW_putW_of_disjoint _ _ _ _ (by omega), getW_putW_self]
      have hv2 : getW M (p + 4) = COMP_OFFSET s.heap_listp x0 % W32 := by
        rw [hM, getW_putW_of_disjoint _ _ _ _ (by omega), getW_putW_self]
      have hv3 : getW M x0 = COMP_OFFSET s.heap_listp p % W32 := by
        rw [hM, getW_putW_self]
      have hv4 : getW M (x0 + 4) = getW s.mem (x0 + 4) := by
        rw [hM, getW_putW_of_disjoint _ _ _ _ (by omega),
          getW_putW_of_disjoint _ _ _ _ (by omega),
          getW_putW_of_disjoint _ _ _ _ (by omega),
          getW_putW_of_disjoint _ _ _ _ (by omega),
          getW_putW_of_disjoint _ _ _ _ (by omega)]
      have hv5 : getW M q = getW s.mem q := by
        rw [hM, getW_putW_of_disjoint _ _ _ _ (by omega),
          getW_putW_of_disjoint _ _ _ _ (by omega),
          getW_putW_of_disjoint _ _ _ _ (by omega),
          getW_putW_of_disjoint _ _ _ _ (by omega),
          getW_putW_of_disjoint _ _ _ _ (by omega)]
      have hv6 : getW M (q + 4) = COMP_OFFSET s.heap_listp y0 % W32 := by
        rw [hM, getW_putW_of_disjoint _ _ _ _ (by omega),
          getW_putW_of_disjoint _ _ _ _ (by omega),
          getW_putW_of_disjoint _ _ _ _ (by omega),
          getW_putW_of_disjoint _ _ _ _ (by omega), getW_putW_self]
      have hv7 : getW M y0 = COMP_OFFSET s.heap_listp q % W32 := by
        rw [hM, getW_putW_of_disjoint _ _ _ _ (by omega),
          getW_putW_of_disjoint _ _ _ _ (by omega),
          getW_putW_of_disjoint _ _ _ _ (by omega), getW_putW_self]
      have hv8 : getW M (y0 + 4) = getW s.mem (y0 + 4) := by
        rw [hM, getW_putW_of_disjoint _ _ _ _ (by omega),
          getW_putW_of_disjoint _ _ _ _ (by omega),
          getW_putW_of_disjoint _ _ _ _ (by omega),
          getW_putW_of_disjoint _ _ _ _ (by omega),
          getW_putW_of_disjoint _ _ _ _ (by omega)]
      have hframeX : ∀ x ∈ X2, getW M x = getW s.mem x ∧
          getW M (x + 4) = getW s.mem (x + 4) := by
        intro x hx
        have hxX : x ∈ x0 :: X2 := List.mem_cons_of_mem _ hx
        have hxq : x ≠ q := fun he => hXdisj x hxX (by simp [he])
        have hxp : x ≠ p := fun he => hXdisj x hxX (by simp [he])
        have hxy0 : x ≠ y0 := fun he => hXdisj x hxX (by simp [he])
        have hxx0 : x ≠ x0 := fun he => hx0X2 (he ▸ hx)
        obtain ⟨hx8, hxl, hxW⟩ := hnd x (List.mem_cons_of_mem _ (List.mem_append_left _ hxX))
        constructor
        · rw [hM, getW_putW_of_disjoint _ _ _ _ (by omega),
            getW_putW_of_disjoint _ _ _ _ (by omega),
            getW_putW_of_disjoint _ _ _ _ (by omega),
            getW_putW_of_disjoint _ _ _ _ (by omega),
            getW_putW_of_disjoint _ _ _ _ (by omega)]
        · rw [hM, getW_putW_of_disjoint _ _ _ _ (by omega),
            getW_putW_of_disjoint _ _ _ _ (by omega),
            getW_putW_of_disjoint _ _ _ _ (by omega),
            getW_putW_of_disjoint _ _ _ _ (by omega),
            getW_putW_of_disjoint _ _ _ _ (by omega)]
      have hframeY : ∀ x ∈ Y2, getW M x = getW s.mem x ∧
          getW M (x + 4) = getW s.mem (x + 4) := by
        intro x hx
        have hxY : x ∈ y0 :: Y2 := List.mem_cons_of_mem _ hx
        have hxq : x ≠ q := fun he => hqpY (by simp [← he, hxY])
        have hxp : x ≠ p := fun he => hpY (by rw [← he]; simp [hx])
        have hxy0 : x ≠ y0 := fun he => hy0Y2 (he ▸ hx)
        have hxx0 : x ≠ x0 := fun he => hXdisj x0 (by simp) (by rw [← he]; simp [hxY])
        obtain ⟨hx8, hxl, hxW⟩ := hnd x (List.mem_cons_of_mem _ (List.mem_append_right _ (List.mem_cons_of_mem _ (List.mem_cons_of_mem _ hxY))))
        constructor
        · rw [hM, getW_putW_of_disjoint _ _ _ _ (by omega),
            getW_putW_of_disjoint _ _ _ _ (by omega),
            getW_putW_of_disjoint _ _ _ _ (by omega),
            getW_putW_of_disjoint _ _ _ _ (by omega),
            getW_putW_of_disjoint _ _ _ _ (by omega)]
        · rw [hM, getW_putW_of_disjoint _ _ _ _ (by omega),
            getW_putW_of_disjoint _ _ _ _ (by omega),
            getW_putW_of_disjoint _ _ _ _ (by omega),
            getW_putW_of_disjoint _ _ _ _ (by omega),
            getW_putW_of_disjoint _ _ _ _ (by omega)]
      refine ⟨?_, rfl⟩
      rw [FreeChainOk_cons_iff]
      refine ⟨rfl, hphl, ?_, ?_⟩
      · simp only [GET_PRED]
        rw [hv1]
        exact comp_roundtrip _ _ (Nat.le_refl _) (by omega) hWW
      · have hs1 : GET_SUCC { s with mem := M, first_free := p } p = x0 := by
          simp only [GET_SUCC]
          rw [hv2]
          exact comp_roundtrip _ _ (by omega) (by omega) hWW
        rw [hs1, FreeChainOk_cons_iff]
        refine ⟨rfl, hx0hl, ?_, ?_⟩
        · simp only [GET_PRED]
          rw [hv3]
          exact comp_roundtrip _ _ (by omega) (by omega) hWW
        · have hs2 : GET_SUCC { s with mem := M, first_free := p } x0 =
              GET_SUCC s x0 := by
            simp only [GET_SUCC]
            rw [hv4]
          rw [hs2]
          refine (chain_append_iff _ X2 x0 (GET_SUCC s x0) (q :: y0 :: Y2)).mpr
            ⟨p3, q, ?_, ?_⟩
          · refine ChainSeg_congr s { s with mem := M, first_free := p } rfl
              X2 x0 (GET_SUCC s x0) p3 q (fun x hx => ?_) hseg
            obtain ⟨hgm, hgm2⟩ := hframeX x hx
            constructor
            · simp only [GET_PRED]
              rw [hgm]
            · simp only [GET_SUCC]
              rw [hgm2]
          · rw [FreeChainOk_cons_iff]
            refine ⟨rfl, hqhl, ?_, ?_⟩
            · simp only [GET_PRED]
              rw [hv5]
              exact hqp3
            · have hs3 : GET_SUCC { s with mem := M, first_free := p } q = y0 := by
                simp only [GET_SUCC]
                rw [hv6]
                exact comp_roundtrip _ _ (by omega) (by omega) hWW
              rw [hs3, FreeChainOk_cons_iff]
              refine ⟨rfl, hy0hl, ?_, ?_⟩
              · simp only [GET_PRED]
                rw [hv7]
                exact comp_roundtrip _ _ (by omega) (by omega) hWW
              · have hs4 : GET_SUCC { s with mem := M, first_free := p } y0 =
                    GET_SUCC s y0 := by
                  simp only [GET_SUCC]
                  rw [hv8]
                rw [hs4]
                refine FreeChainOk_congr s { s with mem := M, first_free := p } rfl
                  Y2 y0 (GET_SUCC s y0) (fun x hx => ?_) hY2
                obtain ⟨hgm, hgm2⟩ := hframeY x hx
                constructor
                · simp only [GET_PRED]
                  rw [hgm]
                · simp only [GET_SUCC]
                  rw [hgm2]

/-- C5: out-of-memory is surfaced as a null result from malloc, realloc and
calloc; but calloc reaches its null return only after handing the null
pointer to memset, which writes the requested byte count through address 0 —
observable here as the heap-external byte at address 5 being zeroed. -/
theorem C5_oom_calloc_memsets_through_null :
    (malloc heapTightA 1000).2 = 0 ∧
    (realloc heapTightA 1016 1000).2 = 0 ∧
    (calloc heapTightA 1 1000).2 = 0 ∧
    heapTightA.mem 5 = 42 ∧
    (calloc heapTightA 1 1000).1.mem 5 = 0 := by
  decide

end Malloc
